import Mathlib

/- Verification development for the titanium-calculator repository.

   The subject is the CommonJS-style module resolver and the string-based
   path library embedded in the runtime bootstrap shim (source file
   src/unnamed/part_009) together with the LiveView loader packaged in
   build/.../HelloWorldApp.app/app.js.

   JavaScript strings are modelled as Lean `String`s (lists of characters);
   the JavaScript string primitives the source uses (substring, slice,
   lastIndexOf, indexOf, split, replace, repeat, startsWith, endsWith,
   toLowerCase) are given explicit executable models in namespace `JsStr`.
   Machine arithmetic does not occur (all indices are small naturals /
   integers and JavaScript numbers are used only as indices here). -/

namespace JsStr

/-- Length of a JS string (number of characters). -/
def slen (s : String) : Nat := s.data.length

/-- Character at an index, `none` when out of bounds (JS returns the empty
    string / NaN for out-of-bounds access; all comparisons against a
    concrete character are then false, which matches the `Option` model). -/
def charAt (s : String) (i : Nat) : Option Char := s.data.get? i

/-- JS `String.prototype.substring(a, b)` (indices clamped to the string,
    swapped when out of order; the source only uses `substring(0, k)`). -/
def jsSubstring (s : String) (a b : Nat) : String :=
  let lo := min a b
  let hi := max a b
  ⟨(s.data.take hi).drop lo⟩

/-- JS `String.prototype.slice(a, b)` restricted to nonnegative indices. -/
def jsSliceNN (s : String) (a b : Nat) : String :=
  ⟨(s.data.take b).drop a⟩

/-- JS `String.prototype.slice` with full signed-index semantics:
    a negative index counts from the end, then indices are clamped. -/
def jsSlice (s : String) (a b : Int) : String :=
  let len : Int := slen s
  let norm : Int → Nat := fun i => if i < 0 then (len + i).toNat else min i.toNat (slen s)
  jsSliceNN s (norm a) (norm b)

/-- JS one-argument `slice(a)` (up to the end of the string). -/
def jsSliceFrom (s : String) (a : Int) : String :=
  jsSlice s a (slen s)

/-- Index of the last occurrence of a character in a character list
    (structural helper for `lastIndexOf`). -/
def lastIdxL (c : Char) : List Char → Option Nat
  | [] => none
  | a :: as =>
    match lastIdxL c as with
    | some k => some (k + 1)
    | none => if a = c then some 0 else none

/-- JS `String.prototype.lastIndexOf(c)` for a single-character needle. -/
def jsLastIndexOf (s : String) (c : Char) : Option Nat :=
  lastIdxL c s.data

/-- JS `String.prototype.lastIndexOf(c, fromIndex)`: only positions
    `≤ fromIndex` are searched, and a negative `fromIndex` is clamped to 0
    (position 0 can still match). -/
def jsLastIndexOfFrom (s : String) (c : Char) (fromIndex : Int) : Option Nat :=
  lastIdxL c (s.data.take ((max fromIndex 0).toNat + 1))

/-- First occurrence of a character, as in JS `indexOf` (single char). -/
def idxCharL (c : Char) : List Char → Option Nat
  | [] => none
  | a :: as => if a = c then some 0 else (idxCharL c as).map (· + 1)

/-- JS `String.prototype.indexOf(c)` for a single-character needle. -/
def jsIndexOfChar (s : String) (c : Char) : Option Nat :=
  idxCharL c s.data

/-- First index at which `p` occurs as a sublist of `l` (substring search). -/
def idxOfL (p : List Char) : List Char → Option Nat
  | [] => if p = [] then some 0 else none
  | a :: as => if p.isPrefixOf (a :: as) then some 0 else (idxOfL p as).map (· + 1)

/-- JS `String.prototype.indexOf(pat)` for a string needle. -/
def jsIndexOfStr (s pat : String) : Option Nat :=
  idxOfL pat.data s.data

/-- JS `String.prototype.replace(pat, repl)` with a string pattern:
    replaces only the first occurrence, anywhere in the string. -/
def replaceFirst (s pat repl : String) : String :=
  match jsIndexOfStr s pat with
  | none => s
  | some i => ⟨s.data.take i ++ repl.data ++ s.data.drop (i + pat.data.length)⟩

/-- JS `String.prototype.replace(/x/g, d)` for a single character
    (used by win32 `normalize` to turn all `/` into `\`). -/
def replaceAllChar (s : String) (c d : Char) : String :=
  ⟨s.data.map (fun x => if x = c then d else x)⟩

/-- JS `String.prototype.split(sep)` on character lists: always yields at
    least one (possibly empty) chunk, and empty chunks between adjacent
    separators are kept, exactly as in JS. -/
def splitCharL (sep : Char) : List Char → List (List Char)
  | [] => [[]]
  | a :: as =>
    if a = sep then [] :: splitCharL sep as
    else
      match splitCharL sep as with
      | [] => [[a]]
      | h :: t => (a :: h) :: t

/-- JS `split` at the `String` level. -/
def jsSplitChar (sep : Char) (s : String) : List String :=
  (splitCharL sep s.data).map String.mk

/-- JS `Array.prototype.join(sep)` on character lists. -/
def joinL (sep : Char) : List (List Char) → List Char
  | [] => []
  | [l] => l
  | l :: ls => l ++ sep :: joinL sep ls

/-- JS `Array.prototype.join(sep)` for a list of strings. -/
def joinStr (sep : Char) (l : List String) : String :=
  ⟨joinL sep (l.map String.data)⟩

/-- JS `String.prototype.repeat(n)`. -/
def repeatStr (s : String) (n : Nat) : String :=
  ⟨(List.replicate n s.data).flatten⟩

/-- JS `String.prototype.startsWith(p)`. -/
def strStartsWith (s p : String) : Bool :=
  p.data.isPrefixOf s.data

/-- JS `String.prototype.endsWith(p)`. -/
def strEndsWith (s p : String) : Bool :=
  p.data.isSuffixOf s.data

/-- JS `String.prototype.toLowerCase` (ASCII, as used for module ids). -/
def toLowerStr (s : String) : String :=
  ⟨s.data.map Char.toLower⟩

/-- One-character string. -/
def csStr (c : Char) : String := ⟨[c]⟩

end JsStr

namespace TiPath

open JsStr

/-- `isWindowsDeviceName` from the source: is the character `[a-zA-Z]`. -/
def isWindowsDeviceName (c : Char) : Bool :=
  ('A' ≤ c ∧ c ≤ 'Z') ∨ ('a' ≤ c ∧ c ≤ 'z')

/-- `isAbsolute(isPosix, filepath)` (source lines 36-60), after the
    argument-type assertion (the assertion itself lives in the `JSVal`
    wrapper layer below). -/
def isAbsolute (isPosix : Bool) (filepath : String) : Bool :=
  if slen filepath = 0 then false
  else
    match filepath.data.head? with
    | none => false
    | some firstChar =>
      if firstChar = '/' then true
      else if isPosix then false
      else if firstChar = '\\' then true
      else if 2 < slen filepath ∧ isWindowsDeviceName firstChar ∧ charAt filepath 1 = some ':' then
        charAt filepath 2 = some '/' ∨ charAt filepath 2 = some '\\'
      else false

/-- `dirname(separator, filepath)` (source lines 68-103).  The separator is
    passed as a character: the source only ever instantiates it with the
    one-character strings `'/'` and `'\\'`. -/
def dirname (separator : Char) (filepath : String) : String :=
  if slen filepath = 0 then "."
  else
    let hadTrailing := strEndsWith filepath (csStr separator)
    let fromIndex : Int := if hadTrailing then (slen filepath : Int) - 2 else (slen filepath : Int) - 1
    match jsLastIndexOfFrom filepath separator fromIndex with
    | none =>
      if 2 ≤ slen filepath ∧ separator = '\\' ∧ charAt filepath 1 = some ':' ∧
          (match filepath.data.head? with
           | some c => isWindowsDeviceName c
           | none => false) = true then
        filepath
      else "."
    | some foundIndex =>
      if foundIndex = 0 then csStr separator
      else if foundIndex = 1 ∧ separator = '/' ∧ charAt filepath 0 = some '/' then "//"
      else jsSliceNN filepath 0 foundIndex

/-- `extname(separator, filepath)` (source lines 111-123): from the last
    `.` (none or index 0 yields `""`) to the end, minus one trailing
    separator character. -/
def extname (separator : Char) (filepath : String) : String :=
  match jsLastIndexOf filepath '.' with
  | none => ""
  | some index =>
    if index = 0 then ""
    else
      let endIndex := if strEndsWith filepath (csStr separator) then slen filepath - 1 else slen filepath
      jsSliceNN filepath index endIndex

/-- Index of the last occurrence of either of two characters. -/
def lastIdx2L (c₁ c₂ : Char) : List Char → Option Nat
  | [] => none
  | a :: as =>
    match lastIdx2L c₁ c₂ as with
    | some k => some (k + 1)
    | none => if a = c₁ ∨ a = c₂ then some 0 else none

/-- `lastIndexWin32Separator(filepath, index)` (source lines 124-132):
    scans indices `index, index-1, ..., 0` for either separator; a negative
    starting index means the loop body never runs. -/
def lastIndexWin32Separator (filepath : String) (index : Int) : Option Nat :=
  if index < 0 then none
  else lastIdx2L '\\' '/' (filepath.data.take (index.toNat + 1))

/-- `basename(separator, filepath, ext?)` (source lines 141-179). -/
def basename (separator : Char) (filepath : String) (ext : Option String) : String :=
  if slen filepath = 0 then ""
  else
    let isPosix := separator = '/'
    let lastCharCode := charAt filepath (slen filepath - 1)
    let endIndex :=
      if lastCharCode = some '/' ∨ (¬isPosix ∧ lastCharCode = some '\\') then slen filepath - 1
      else slen filepath
    let lastIndex : Option Nat :=
      if isPosix then jsLastIndexOfFrom filepath separator ((endIndex : Int) - 1)
      else lastIndexWin32Separator filepath ((endIndex : Int) - 1)
    let winRoot : Bool :=
      ¬isPosix ∧ (lastIndex = some 2 ∨ lastIndex = none) ∧ charAt filepath 1 = some ':' ∧
        (match filepath.data.head? with
         | some c => isWindowsDeviceName c
         | none => false) = true
    if winRoot then ""
    else
      let startIdx := match lastIndex with | none => 0 | some k => k + 1
      let base := jsSliceNN filepath startIdx endIndex
      match ext with
      | none => base
      | some e => if strEndsWith base e then jsSliceNN base 0 (slen base - slen e) else base

/-- The segment-processing loop of `normalize` (source lines 213-221):
    empty segments and `.` are dropped, `..` pops the previous retained
    segment (popping an empty stack is a no-op, exactly like
    `Array.prototype.pop`), anything else is pushed. -/
def normSegsAux (acc : List String) : List String → List String
  | [] => acc
  | seg :: rest =>
    if seg = "" ∨ seg = "." then normSegsAux acc rest
    else if seg = ".." then normSegsAux acc.dropLast rest
    else normSegsAux (acc ++ [seg]) rest

/-- `normalize(separator, filepath)` (source lines 196-231). -/
def normalize (separator : Char) (filepath0 : String) : String :=
  if slen filepath0 = 0 then "."
  else
    let isWindows := separator = '\\'
    let filepath := if isWindows then replaceAllChar filepath0 '/' '\\' else filepath0
    let sepS := csStr separator
    let hadLeading := strStartsWith filepath sepS
    let isUNC := hadLeading ∧ isWindows ∧ 2 < slen filepath ∧ charAt filepath 1 = some '\\'
    let hadTrailing := strEndsWith filepath sepS
    let parts := jsSplitChar separator filepath
    let result := normSegsAux [] parts
    let normalized0 := (if hadLeading then sepS else "") ++ joinStr separator result
    let normalized1 := if hadTrailing then normalized0 ++ sepS else normalized0
    if isUNC then "\\" ++ normalized1 else normalized1

/-- `join(separator, paths)` (source lines 253-263): concatenate the
    non-empty segments with the separator, then normalize.  (The per-segment
    string assertion lives in the `JSVal` wrapper layer.) -/
def join (separator : Char) (paths : List String) : String :=
  normalize separator (joinStr separator (paths.filter (fun s => s ≠ "")))

/-- The working directory used by `resolve`: the runtime provides no global
    `process` binding (the source reads `global.process ? process.cwd() : '/'`
    and nothing in the repository defines `process`), so it is `'/'`. -/
def cwd : String := "/"

/-- The right-to-left accumulation loop of `resolve` (source lines 277-290);
    the input list is already reversed by the caller. -/
def resolveGo (separator : Char) : List String → String → String × Bool
  | [], acc => (acc, false)
  | seg :: rest, acc =>
    if seg = "" then resolveGo separator rest acc
    else
      let acc1 := seg ++ csStr separator ++ acc
      if isAbsolute (separator = '/') seg then (acc1, true)
      else resolveGo separator rest acc1

/-- `resolve(separator, paths)` (source lines 272-306). -/
def resolve (separator : Char) (paths : List String) : String :=
  let p := resolveGo separator paths.reverse ""
  let resolved := if p.2 then p.1 else cwd ++ csStr separator ++ p.1
  let normalized := normalize separator resolved
  if strEndsWith normalized (csStr separator) then
    if separator ≠ '/' ∧ slen normalized = 3 ∧ charAt normalized 1 = some ':' ∧
        (match normalized.data.head? with
         | some c => isWindowsDeviceName c
         | none => false) = true then
      normalized
    else jsSliceNN normalized 0 (slen normalized - 1)
  else normalized

/-- The `while (true)` walk-up loop of `relative` (source lines 338-347),
    made total with a fuel parameter; `relative` below supplies fuel that a
    terminating source run never exhausts (`dirname` strictly shortens an
    absolute path until it reaches `"/"`, whose iterate is stable and is a
    prefix of every `resolve` output). -/
def relGo (separator : Char) : Nat → String → String → Nat → Option (Nat × String)
  | 0, _, _, _ => none
  | fuel + 1, fromP, toP, upCount =>
    if strStartsWith toP fromP then some (upCount, jsSliceNN toP (slen fromP) (slen toP))
    else relGo separator fuel (dirname separator fromP) toP (upCount + 1)

/-- `relative(separator, from, to)` (source lines 321-353).  Note the
    source chops one character off a non-empty remaining path without
    checking that it is a separator. -/
def relative (separator : Char) (fromP toP : String) : Option String :=
  if fromP = toP then some ""
  else
    let f := resolve separator [fromP]
    let t := resolve separator [toP]
    if f = t then some ""
    else
      (relGo separator (slen f + 2) f t 0).map fun p =>
        let rem := if 0 < slen p.2 then jsSliceNN p.2 1 (slen p.2) else p.2
        repeatStr (".." ++ csStr separator) p.1 ++ rem

/-- The record returned by `parse` (source lines 373-379). -/
structure ParsedPath where
  root : String
  dir : String
  base : String
  ext : String
  name : String
deriving DecidableEq

/-- `parse(separator, filepath)` (source lines 371-423). -/
def parse (separator : Char) (filepath : String) : ParsedPath :=
  if slen filepath = 0 then ⟨"", "", "", "", ""⟩
  else
    let base := basename separator filepath none
    let ext := extname separator base
    let name := jsSliceNN base 0 (slen base - slen ext)
    let toSubtract := if slen base = 0 then 0 else slen base + 1
    let dir := jsSliceNN filepath 0 (slen filepath - toSubtract)
    let root :=
      match filepath.data.head? with
      | some c =>
        if c = '/' then "/"
        else if separator = '/' then ""
        else if c = '\\' then "\\"
        else if 1 < slen filepath ∧ isWindowsDeviceName c ∧ charAt filepath 1 = some ':' then
          if 2 < slen filepath ∧ (charAt filepath 2 = some '/' ∨ charAt filepath 2 = some '\\') then
            jsSliceNN filepath 0 3
          else jsSliceNN filepath 0 2
        else ""
      | none => ""
    ⟨root, dir, base, ext, name⟩

/-- A JavaScript value at the path-library boundary, carrying just enough
    structure to model `typeof`-based argument validation. -/
inductive JSVal where
  | str (s : String)
  | num (n : Int)
  | boolV (b : Bool)
  | undef
  | objV
deriving DecidableEq

/-- JS `typeof`. -/
def JSVal.typeof : JSVal → String
  | .str _ => "string"
  | .num _ => "number"
  | .boolV _ => "boolean"
  | .undef => "undefined"
  | .objV => "object"

/-- The underlying string of a `JSVal` already checked to be a string. -/
def JSVal.getStr : JSVal → String
  | .str s => s
  | _ => ""

/-- The path-library failure taxonomy: a type-mismatch failure thrown
    synchronously by the argument assertions. -/
inductive PathErr where
  | typeError (msg : String)
deriving DecidableEq

/-- `assertArgumentType(arg, name, typename)` (source lines 11-16). -/
def assertArgumentType (arg : JSVal) (name typename : String) : Except PathErr Unit :=
  if arg.typeof ≠ JsStr.toLowerStr typename then
    .error (.typeError ("The \"" ++ name ++ "\" argument must be of type " ++ typename ++
      ". Received type " ++ arg.typeof))
  else .ok ()

/-- `assertSegment(segment)` (source lines 238-242); the interpolated value
    in the message is rendered via its type. -/
def assertSegment (segment : JSVal) : Except PathErr Unit :=
  match segment with
  | .str _ => .ok ()
  | v => .error (.typeError ("Path must be a string. Received a value of type " ++ v.typeof))

/-- `isAbsolute` with its argument assertion, as invoked through the public
    namespaces. -/
def isAbsoluteJS (isPosix : Bool) (v : JSVal) : Except PathErr Bool := do
  assertArgumentType v "path" "string"
  pure (isAbsolute isPosix v.getStr)

/-- `dirname` with its argument assertion. -/
def dirnameJS (separator : Char) (v : JSVal) : Except PathErr String := do
  assertArgumentType v "path" "string"
  pure (dirname separator v.getStr)

/-- `extname` with its argument assertion. -/
def extnameJS (separator : Char) (v : JSVal) : Except PathErr String := do
  assertArgumentType v "path" "string"
  pure (extname separator v.getStr)

/-- `basename` with its argument assertions (the optional `ext` is only
    asserted when present, source lines 142-145). -/
def basenameJS (separator : Char) (v : JSVal) (ext : Option JSVal) : Except PathErr String := do
  assertArgumentType v "path" "string"
  match ext with
  | none => pure (basename separator v.getStr none)
  | some e => do
    assertArgumentType e "ext" "string"
    pure (basename separator v.getStr (some e.getStr))

/-- `normalize` with its argument assertion. -/
def normalizeJS (separator : Char) (v : JSVal) : Except PathErr String := do
  assertArgumentType v "path" "string"
  pure (normalize separator v.getStr)

/-- `parse` with its argument assertion. -/
def parseJS (separator : Char) (v : JSVal) : Except PathErr ParsedPath := do
  assertArgumentType v "path" "string"
  pure (parse separator v.getStr)

/-- `relative` with its two argument assertions. -/
def relativeJS (separator : Char) (v₁ v₂ : JSVal) : Except PathErr (Option String) := do
  assertArgumentType v₁ "from" "string"
  assertArgumentType v₂ "to" "string"
  pure (relative separator v₁.getStr v₂.getStr)

/-- The segment loop of `join` with its per-segment assertion
    (source lines 253-262): every segment is asserted, in order, before the
    concatenation is normalized. -/
def joinGoJS : List JSVal → List String → Except PathErr (List String)
  | [], acc => .ok acc
  | v :: rest, acc => do
    assertSegment v
    let s := v.getStr
    joinGoJS rest (if s = "" then acc else acc ++ [s])

/-- `join` at the `JSVal` boundary. -/
def joinJS (separator : Char) (paths : List JSVal) : Except PathErr String := do
  let result ← joinGoJS paths []
  pure (normalize separator (JsStr.joinStr separator result))

/-- The right-to-left loop of `resolve` with its per-segment assertion
    (source lines 277-290): segments are asserted right-to-left, and the
    loop breaks as soon as an absolute segment is hit, so segments to the
    left of the first absolute segment are never validated. -/
def resolveGoJS (separator : Char) : List JSVal → String → Except PathErr (String × Bool)
  | [], acc => .ok (acc, false)
  | v :: rest, acc => do
    assertSegment v
    let seg := v.getStr
    if seg = "" then resolveGoJS separator rest acc
    else
      let acc1 := seg ++ JsStr.csStr separator ++ acc
      if isAbsolute (separator = '/') seg then .ok (acc1, true)
      else resolveGoJS separator rest acc1

/-- `resolve` at the `JSVal` boundary (source lines 272-306). -/
def resolveJS (separator : Char) (paths : List JSVal) : Except PathErr String := do
  let p ← resolveGoJS separator paths.reverse ""
  let resolved := if p.2 then p.1 else cwd ++ JsStr.csStr separator ++ p.1
  let normalized := normalize separator resolved
  if JsStr.strEndsWith normalized (JsStr.csStr separator) then
    if separator ≠ '/' ∧ JsStr.slen normalized = 3 ∧ JsStr.charAt normalized 1 = some ':' ∧
        (match normalized.data.head? with
         | some c => isWindowsDeviceName c
         | none => false) = true then
      pure normalized
    else pure (JsStr.jsSliceNN normalized 0 (JsStr.slen normalized - 1))
  else pure normalized

/-- `toNamespacedPath` of the win32 namespace (source lines 458-486): a
    non-string argument is returned unmodified, without any assertion. -/
def toNamespacedPathWin (v : JSVal) : JSVal :=
  match v with
  | .str filepath =>
    if JsStr.slen filepath = 0 then .str ""
    else
      let resolvedPath := resolve '\\' [filepath]
      if JsStr.slen resolvedPath < 2 then .str filepath
      else
        match resolvedPath.data.head? with
        | some c =>
          if c = '\\' ∧ JsStr.charAt resolvedPath 1 = some '\\' then
            if 3 ≤ JsStr.slen resolvedPath ∧
                (JsStr.charAt resolvedPath 2 = some '?' ∨ JsStr.charAt resolvedPath 2 = some '.') then
              .str filepath
            else .str ("\\\\?\\UNC\\" ++ JsStr.jsSliceNN resolvedPath 2 (JsStr.slen resolvedPath))
          else if isWindowsDeviceName c ∧ JsStr.charAt resolvedPath 1 = some ':' then
            .str ("\\\\?\\" ++ resolvedPath)
          else .str filepath
        | none => .str filepath
  | other => other

/-- `toNamespacedPath` of the posix namespace (source lines 567-569): the
    identity function, with no assertion. -/
def toNamespacedPathPosix (v : JSVal) : JSVal := v

end TiPath

/- The two public namespaces (source lines 487-574): `PosixPath` binds the
   separator `'/'`, `Win32Path` binds `'\\'`; the default `path` object is
   the POSIX one. -/

namespace Posix

def sep : Char := '/'

def normalize (s : String) : String := TiPath.normalize sep s

def join (paths : List String) : String := TiPath.join sep paths

def resolve (paths : List String) : String := TiPath.resolve sep paths

def relative (fromP toP : String) : Option String := TiPath.relative sep fromP toP

def dirname (s : String) : String := TiPath.dirname sep s

def basename (s : String) (ext : Option String) : String := TiPath.basename sep s ext

def extname (s : String) : String := TiPath.extname sep s

def isAbsolute (s : String) : Bool := TiPath.isAbsolute true s

def parse (s : String) : TiPath.ParsedPath := TiPath.parse sep s

end Posix

namespace Win32

def sep : Char := '\\'

def normalize (s : String) : String := TiPath.normalize sep s

def join (paths : List String) : String := TiPath.join sep paths

def resolve (paths : List String) : String := TiPath.resolve sep paths

def relative (fromP toP : String) : Option String := TiPath.relative sep fromP toP

def dirname (s : String) : String := TiPath.dirname sep s

def basename (s : String) (ext : Option String) : String := TiPath.basename sep s ext

def extname (s : String) : String := TiPath.extname sep s

def isAbsolute (s : String) : Bool := TiPath.isAbsolute false s

def parse (s : String) : TiPath.ParsedPath := TiPath.parse sep s

end Win32

/- The LiveView loader packaged in
   build/iphone/build/Products/Debug-iphonesimulator/HelloWorldApp.app/app.js.
   Only the resolution-and-cache part of `Module.require` (lines 542-590) is
   needed by the claims; the actual compile step (`_compile`, which fetches
   remote source over HTTP and evaluates it) happens strictly after the
   returned `fresh` decision and is abstracted as the collaborator boundary. -/

namespace LiveView

open JsStr

/-- `Module.toAbsolute(parent, relative)` (app.js lines 516-534). -/
def toAbsolute (parent relativeP : String) : String :=
  let newPath := (jsSplitChar '/' parent).dropLast
  let parts := jsSplitChar '/' relativeP
  let final := parts.foldl
    (fun acc p =>
      if p = "." then acc
      else if p = ".." then acc.dropLast
      else acc ++ [p])
    newPath
  joinStr '/' final

/-- The outcome of the resolution part of `Module.require`:
    either a module found in `Module._cache` (whose `exports` are returned
    at once), or the `fullPath` a fresh `Module` would be created for and
    compiled. -/
inductive LvResult where
  | cachedHit (modAddr : Nat)
  | fresh (fullPath : String)
deriving DecidableEq

/-- `Module.getCached(id)` (app.js lines 599-601) over the modelled cache. -/
def getCached (cache : List (String × Nat)) (id : String) : Option Nat :=
  (cache.find? (fun e => e.1 = id)).map (·.2)

/-- `Module.require(id)` (app.js lines 542-590), up to the point where
    either a cached module is returned or a fresh module is created for the
    final `fullPath`.  `existsF` abstracts `Module.exists` (a filesystem
    collaborator); `compileList` is `Module._compileList`. -/
def lvRequire (cache : List (String × Nat)) (compileList : List String)
    (existsF : String → Bool) (id : String) : LvResult :=
  let fullPath0 := id
  let fullPath1 :=
    if jsIndexOfStr fullPath0 "./" = some 0 ∨ jsIndexOfStr fullPath0 "../" = some 0 then
      let parent := (compileList.getLast?).getD ""
      toAbsolute parent fullPath0
    else fullPath0
  let cached :=
    (getCached cache fullPath1).orElse fun _ =>
      (getCached cache (replaceFirst fullPath1 "/index" "")).orElse fun _ =>
        getCached cache (fullPath1 ++ "/index")
  match cached with
  | some a => .cachedHit a
  | none =>
    let fullPath2 :=
      if existsF fullPath1 then fullPath1
      else if strStartsWith fullPath1 "/" ∧ existsF (fullPath1 ++ "/index") then
        fullPath1 ++ "/index"
      else
        let hlDir := "/hyperloop/"
        let fp :=
          if jsIndexOfStr fullPath1 ".*" ≠ none then jsSliceNN id 0 (slen id - 2)
          else fullPath1
        let modLowerCase := toLowerStr fp
        if existsF (hlDir ++ fp) then hlDir ++ fp
        else if existsF (hlDir ++ modLowerCase) then hlDir ++ modLowerCase
        else if jsIndexOfChar fp '.' = none ∧ existsF (hlDir ++ fp ++ "/" ++ fp) then
          hlDir ++ fp ++ "/" ++ fp
        else if jsIndexOfChar fp '.' = none ∧
            existsF (hlDir ++ modLowerCase ++ "/" ++ modLowerCase) then
          hlDir ++ modLowerCase ++ "/" ++ modLowerCase
        else
          let lastIndex : Int := match jsLastIndexOf fp '.' with | some k => (k : Int) | none => -1
          let tempPath := hlDir ++ jsSlice fp 0 lastIndex ++ "$" ++ jsSliceFrom fp (lastIndex + 1)
          if existsF fp then tempPath else fp
    .fresh fullPath2

end LiveView

/- The kernel module loader (`bootstrap$2` in src/unnamed/part_009,
   lines 582-1110): a stateful, cached CommonJS-style loader.

   Modelling choices (each noted at its definition):
   * the heap of mutable `exports` objects and of `Module` instances is made
     explicit (`LState`), since identity of exports references is exactly
     what the claims are about;
   * module bodies are embedded as small statement lists (`Stmt`) covering
     the operations the claims exercise: writing a property of the module's
     own `exports`, evaluating an expression (including nested `require`
     calls and property reads), and throwing;
   * `assets.readAsset` hands back either a JavaScript body or a
     (pre-parsed, possibly malformed) JSON document; the lazily-read
     `_index_.json` file index is presented as the environment's
     `fileIndex` list (the laziness of the read is unobservable);
   * all recursion is indexed by fuel; running out of fuel is the
     `outOfFuel` error, which a terminating source execution never hits. -/

namespace Kernel

open JsStr

/-- A primitive JSON value. -/
inductive JPrim where
  | jnull
  | jbool (b : Bool)
  | jnum (n : Int)
  | jstr (s : String)
deriving DecidableEq

/-- A parsed JSON document (the result of `JSON.parse`), modelled to one
    nesting level: a primitive, or an object of primitives.  This covers
    every read the loader performs (the `main` field of a `package.json`
    and the exported value of a `.json` module). -/
inductive JVal where
  | prim (p : JPrim)
  | jobj (fields : List (String × JPrim))
deriving DecidableEq

/-- A runtime value: JS primitives, heap objects (by address), `Module`
    instances (by address) and immutable parsed-JSON documents. -/
inductive Value where
  | undef
  | vnull
  | boolV (b : Bool)
  | num (n : Int)
  | str (s : String)
  | obj (a : Nat)
  | modv (a : Nat)
  | jsonV (j : JVal)
deriving DecidableEq

/-- JS truthiness. -/
def Value.truthy : Value → Bool
  | .undef => false
  | .vnull => false
  | .boolV b => b
  | .num n => decide (n ≠ 0)
  | .str s => decide (s ≠ "")
  | _ => true

/-- Embed a primitive JSON value as a runtime value. -/
def jprimToValue : JPrim → Value
  | .jnull => .vnull
  | .jbool b => .boolV b
  | .jnum n => .num n
  | .jstr s => .str s

/-- Embed a JSON document as a value. -/
def jvalToValue : JVal → Value
  | .prim p => jprimToValue p
  | .jobj fs => .jsonV (.jobj fs)

/-- Property read on a parsed JSON document. -/
def jGetField (j : JVal) (k : String) : Value :=
  match j with
  | .jobj fs =>
    match fs.find? (fun e => e.1 = k) with
    | some e => jprimToValue e.2
    | none => .undef
  | _ => (.undef)

/-- An expression of a module body. -/
inductive Expr where
  | lit (v : Value)
  | requireE (spec : String)
  | getField (e : Expr) (k : String)

/-- A statement of a module body. -/
inductive Stmt where
  | setExport (k : String) (e : Expr)
  | exprStmt (e : Expr)
  | throwStmt (e : Expr)

/-- What `assets.readAsset` (or a collaborator-provided source string)
    denotes: a JavaScript module body, or a JSON document (`none` models a
    document that fails to parse). -/
inductive SourceText where
  | jsSrc (body : List Stmt)
  | rawJson (v : Option JVal)

/-- One `Module` instance (constructor, source lines 599-607; `path` and
    `paths` are filled in by `load`). -/
structure ModuleRec where
  id : String
  exportsVal : Value
  parent : Option Nat
  filename : Option String
  loaded : Bool
  wrapperCache : List (String × Value)
  isService : Bool
  pathDir : String
  paths : List String
deriving DecidableEq

/-- The global, process-wide loader state: the module heap, the object
    heap, `Module.cache`, `Module.main`, whether the entry module installed
    the global `require`, and the allocator counter. -/
structure LState where
  mods : List (Nat × ModuleRec)
  objs : List (Nat × List (String × Value))
  cache : List (String × Value)
  mainMod : Option Nat
  globalRequireSet : Bool
  next : Nat
deriving DecidableEq

/-- The two abstract collaborators of the loader: the asset store
    (file index + asset contents) and the native-binding provider
    (`kroll.externalBinding`, `kroll.isExternalCommonJsModule`,
    `kroll.getExternalCommonJsModule`). -/
structure KEnv where
  fileIndex : List String
  assets : String → Option SourceText
  externalBinding : String → Option Value
  isExternalCommonJsModule : String → Bool
  getExternalCommonJsModule : String → Option SourceText

/-- Loader failures.  `moduleNotFound` is the loader's own error
    (source line 792); the others model JS exceptions that propagate
    through the loader uncaught. -/
inductive RunErr where
  | moduleNotFound (request : String)
  | alreadyLoaded
  | assetMissing (filename : String)
  | jsonParse (filename : String)
  | typeError (msg : String)
  | thrown (v : Value)
  | badSource (filename : String)
  | internal
  | outOfFuel
deriving DecidableEq

/-- Look up a module record. -/
def getMod (s : LState) (a : Nat) : Option ModuleRec :=
  (s.mods.find? (fun e => e.1 = a)).map (·.2)

/-- Update a module record in place. -/
def updMod (s : LState) (a : Nat) (f : ModuleRec → ModuleRec) : LState :=
  { s with mods := s.mods.map (fun e => if e.1 = a then (e.1, f e.2) else e) }

/-- Look up an object's fields. -/
def getObj (s : LState) (a : Nat) : Option (List (String × Value)) :=
  (s.objs.find? (fun e => e.1 = a)).map (·.2)

/-- Read one object property. -/
def objField (s : LState) (a : Nat) (k : String) : Option Value :=
  (getObj s a).bind fun fields => (fields.find? (fun e => e.1 = k)).map (·.2)

/-- Assignment into an association list (overwrite or append, preserving
    insertion order like a JS object). -/
def setAssocV (l : List (String × Value)) (k : String) (v : Value) : List (String × Value) :=
  if (l.find? (fun e => e.1 = k)).isSome then
    l.map (fun e => if e.1 = k then (e.1, v) else e)
  else l ++ [(k, v)]

/-- Write one object property. -/
def setObjField (s : LState) (a : Nat) (k : String) (v : Value) : LState :=
  { s with objs := s.objs.map (fun e => if e.1 = a then (e.1, setAssocV e.2 k v) else e) }

/-- `Module.cache[k]` read. -/
def lookupCache (s : LState) (k : String) : Option Value :=
  (s.cache.find? (fun e => e.1 = k)).map (·.2)

/-- `Module.cache[k] = v`. -/
def putCache (s : LState) (k : String) (v : Value) : LState :=
  { s with cache := setAssocV s.cache k v }

/-- `new Module(id, parent)`: allocates the fresh (initially empty)
    `exports` object and the module record. -/
def newModule (s : LState) (id : String) (parent : Option Nat) : Nat × LState :=
  let oa := s.next
  let ma := s.next + 1
  (ma,
    { s with
      objs := s.objs ++ [(oa, [])]
      mods := s.mods ++ [(ma,
        { id := id, exportsVal := .obj oa, parent := parent, filename := none,
          loaded := false, wrapperCache := [], isService := false,
          pathDir := "", paths := [] })]
      next := s.next + 2 })

/-- `filenameExists(filename)` (source lines 1069-1076): membership of
    `'Resources' + filename` in the app's file index. -/
def filenameExists (env : KEnv) (filename : String) : Bool :=
  env.fileIndex.contains ("Resources" ++ filename)

/-- `loaded.exports`: reading the `exports` property of whatever a load
    strategy returned (a `Module` instance in every reachable case). -/
def exportsOfV (s : LState) (v : Value) : Value :=
  match v with
  | .modv a =>
    match getMod s a with
    | some r => r.exportsVal
    | none => .undef
  | .obj a => (objField s a "exports").getD .undef
  | _ => (.undef)

/-- Whether a `node_modules` ancestor segment is emitted
    (source lines 879-884: segments equal to `node_modules` or empty are
    skipped). -/
def nmValid (seg : String) : Bool :=
  ¬(seg = "node_modules" ∨ seg = "")

/-- The descending index loop of `nodeModulesPaths`
    (source lines 878-891), from index `i` down to 0. -/
def nmGo (parts : List String) : Nat → List String
  | 0 =>
    if nmValid ((parts.get? 0).getD "") then
      [TiPath.join '/' [joinStr '/' (parts.take 1), "node_modules"]]
    else []
  | i + 1 =>
    (if nmValid ((parts.get? (i + 1)).getD "") then
      [TiPath.join '/' [joinStr '/' (parts.take (i + 2)), "node_modules"]]
    else []) ++ nmGo parts i

/-- `nodeModulesPaths(startDir)` (source lines 861-895). -/
def nodeModulesPaths (startDir0 : String) : List String :=
  let startDir := TiPath.resolve '/' [startDir0]
  if startDir = "/" then ["/node_modules"]
  else
    let parts := jsSplitChar '/' startDir
    (match parts.length with
     | 0 => []
     | n + 1 => nmGo parts n) ++ ["/node_modules"]

/-- `kroll.extend(thisObject, otherObject)` (bootstrap, lines 1160-1172):
    copy own properties onto the target; only heap objects are writable in
    this model (extending an opaque native value is unobservable here). -/
def krollExtend (s : LState) (target other : Value) : LState :=
  match target with
  | .obj ta =>
    match other with
    | .obj oa =>
      match getObj s oa with
      | some fields => fields.foldl (fun st e => setObjField st ta e.1 e.2) s
      | none => s
    | .jsonV (.jobj fs) => fs.foldl (fun st e => setObjField st ta e.1 (jprimToValue e.2)) s
    | _ => s
  | _ => s

/-- The call alphabet of the loader's mutually recursive methods. -/
inductive KCall where
  | require (self : Nat) (request : String)
  | loadCoreModule (self : Nat) (id : String)
  | loadExternalModule (self : Nat) (id : String) (externalBinding : Value)
  | extendModuleWithCommonJs (self : Nat) (externalModule : Value) (id : String)
  | loadNodeModules (self : Nat) (moduleId : String) (dirs : List String)
  | loadAsFileOrDirectory (self : Nat) (p : String)
  | loadAsFile (self : Nat) (id : String)
  | loadAsDirectory (self : Nat) (id : String)
  | loadJavascriptText (self : Nat) (filename : String)
  | loadJavascriptObject (self : Nat) (filename : String)
  | load (m : Nat) (filename : String) (source : Option SourceText)
  | runScript (m : Nat) (source : SourceText) (filename : String)
  | runBody (m : Nat) (stmts : List Stmt)
  | evalE (m : Nat) (e : Expr)

/-- Error-propagating sequencing: JS exceptions abort the caller but the
    global state (caches, heaps) persists, so errors carry the state. -/
def andThen (r : Except RunErr Value × LState)
    (f : Value → LState → Except RunErr Value × LState) : Except RunErr Value × LState :=
  match r with
  | (.ok v, s) => f v s
  | e => e

/-- One fuel-indexed interpreter for all the loader's methods.  Each case
    mirrors the corresponding method of the bootstrap `Module` class; the
    line numbers refer to src/unnamed/part_009. -/
def step (env : KEnv) : Nat → KCall → LState → Except RunErr Value × LState
  | 0, _, s => (.error .outOfFuel, s)
  | fuel + 1, c, s =>
    match c with
    | .require self request =>
      -- `Module.prototype.require` (lines 726-793)
      match getMod s self with
      | none => (.error .internal, s)
      | some rec =>
        let start := jsSubstring request 0 2
        if start = "./" ∨ start = ".." then
          andThen (step env fuel
              (.loadAsFileOrDirectory self (TiPath.normalize '/' (rec.pathDir ++ "/" ++ request))) s)
            fun loaded s1 =>
              if loaded.truthy then (.ok (exportsOfV s1 loaded), s1)
              else (.error (.moduleNotFound request), s1)
        else if jsSubstring request 0 1 = "/" then
          andThen (step env fuel (.loadAsFileOrDirectory self (TiPath.normalize '/' request)) s)
            fun loaded s1 =>
              if loaded.truthy then (.ok (exportsOfV s1 loaded), s1)
              else (.error (.moduleNotFound request), s1)
        else
          andThen (step env fuel (.loadCoreModule self request) s) fun core s1 =>
            if core.truthy then (.ok core, s1)
            else
              let afterSibling : LState → Except RunErr Value × LState := fun s2 =>
                match getMod s2 self with
                | none => (.error .internal, s2)
                | some rec2 =>
                  andThen (step env fuel (.loadNodeModules self request rec2.paths) s2)
                    fun nm s3 =>
                      if nm.truthy then (.ok (exportsOfV s3 nm), s3)
                      else
                        andThen (step env fuel
                            (.loadAsFileOrDirectory self (TiPath.normalize '/' ("/" ++ request))) s3)
                          fun leg s4 =>
                            if leg.truthy then (.ok (exportsOfV s4 leg), s4)
                            else (.error (.moduleNotFound request), s4)
              if jsIndexOfChar request '/' = none then
                let filename := "/" ++ request ++ "/" ++ request ++ ".js"
                let afterExact : LState → Except RunErr Value × LState := fun s2 =>
                  andThen (step env fuel (.loadAsDirectory self ("/" ++ request)) s2)
                    fun d s3 =>
                      if d.truthy then (.ok (exportsOfV s3 d), s3) else afterSibling s3
                if filenameExists env filename then
                  andThen (step env fuel (.loadJavascriptText self filename) s1) fun t s2 =>
                    if t.truthy then (.ok (exportsOfV s2 t), s2) else afterExact s2
                else afterExact s1
              else afterSibling s1
    | .loadCoreModule self id =>
      -- `Module.prototype.loadCoreModule` (lines 801-835)
      if id = "" ∨ strStartsWith id "." ∨ strStartsWith id "/" then (.ok .vnull, s)
      else
        match getMod s self with
        | none => (.error .internal, s)
        | some rec =>
          let cont : Unit → Except RunErr Value × LState := fun _ =>
            let parts := jsSplitChar '/' id
            let p0 := (parts.get? 0).getD ""
            match env.externalBinding p0 with
            | some b =>
              if b.truthy then
                if parts.length = 1 then step env fuel (.loadExternalModule self p0 b) s
                else if env.isExternalCommonJsModule p0 then
                  -- `kroll.getExternalCommonJsModule(id)`: a present source is
                  -- treated as truthy contents
                  match env.getExternalCommonJsModule id with
                  | some contents =>
                    let p := newModule s id (some self)
                    andThen (step env fuel (.load p.1 id (some contents)) p.2) fun _ s3 =>
                      match getMod s3 p.1 with
                      | some r => (.ok r.exportsVal, s3)
                      | none => (.error .internal, s3)
                  | none => (.ok .vnull, s)
                else (.ok .vnull, s)
              else (.ok .vnull, s)
            | none => (.ok .vnull, s)
          match rec.wrapperCache.find? (fun e => e.1 = id) with
          | some w => if w.2.truthy then (.ok w.2, s) else cont ()
          | none => cont ()
    | .loadExternalModule self id externalBinding =>
      -- `Module.prototype.loadExternalModule` (lines 680-713)
      match getMod s self with
      | none => (.error .internal, s)
      | some rec =>
        let cached := (lookupCache s id).getD .undef
        let externalModule := if cached.truthy then cached else externalBinding
        if ¬externalModule.truthy then (.ok .vnull, s)
        else
          let s1 := putCache s id externalModule
          let mkWrapper : Unit → Except RunErr Value × LState := fun _ =>
            -- `createModuleWrapper` returns the external module unchanged on
            -- iOS (lines 646-651)
            let wrapper := externalModule
            andThen (step env fuel (.extendModuleWithCommonJs self wrapper id) s1) fun _ s2 =>
              (.ok wrapper,
                updMod s2 self (fun r => { r with wrapperCache := setAssocV r.wrapperCache id wrapper }))
          match rec.wrapperCache.find? (fun e => e.1 = id) with
          | some w => if w.2.truthy then (.ok w.2, s1) else mkWrapper ()
          | none => mkWrapper ()
    | .extendModuleWithCommonJs self externalModule id =>
      -- `Module.prototype.extendModuleWithCommonJs` (lines 658-672)
      if ¬env.isExternalCommonJsModule id then (.ok .undef, s)
      else
        let fakeId := id ++ ".commonjs"
        let p := newModule s fakeId (some self)
        andThen (step env fuel (.load p.1 fakeId (env.getExternalCommonJsModule id)) p.2)
          fun _ s2 =>
            match getMod s2 p.1 with
            | some r =>
              if r.exportsVal.truthy then (.ok .undef, krollExtend s2 externalModule r.exportsVal)
              else (.ok .undef, s2)
            | none => (.error .internal, s2)
    | .loadNodeModules self moduleId dirs =>
      -- `Module.prototype.loadNodeModules` (lines 843-854)
      match dirs with
      | [] => (.ok .vnull, s)
      | dir :: rest =>
        andThen (step env fuel (.loadAsFileOrDirectory self (TiPath.join '/' [dir, moduleId])) s)
          fun v s1 =>
            if v.truthy then (.ok v, s1)
            else step env fuel (.loadNodeModules self moduleId rest) s1
    | .loadAsFileOrDirectory self p =>
      -- `Module.prototype.loadAsFileOrDirectory` (lines 902-914)
      andThen (step env fuel (.loadAsFile self p) s) fun v s1 =>
        if v.truthy then (.ok v, s1)
        else
          andThen (step env fuel (.loadAsDirectory self p) s1) fun d s2 =>
            if d.truthy then (.ok d, s2) else (.ok .vnull, s2)
    | .loadAsFile self id =>
      -- `Module.prototype.loadAsFile` (lines 960-982)
      if filenameExists env id then
        if 5 < slen id ∧ jsSliceFrom id (-4) = "json" then
          step env fuel (.loadJavascriptObject self id) s
        else step env fuel (.loadJavascriptText self id) s
      else if filenameExists env (id ++ ".js") then
        step env fuel (.loadJavascriptText self (id ++ ".js")) s
      else if filenameExists env (id ++ ".json") then
        step env fuel (.loadJavascriptObject self (id ++ ".json")) s
      else (.ok .vnull, s)
    | .loadAsDirectory self id =>
      -- `Module.prototype.loadAsDirectory` (lines 990-1015)
      let afterMain : LState → Except RunErr Value × LState := fun s1 =>
        let idx := TiPath.resolve '/' [id, "index.js"]
        if filenameExists env idx then step env fuel (.loadJavascriptText self idx) s1
        else
          let idxj := TiPath.resolve '/' [id, "index.json"]
          if filenameExists env idxj then step env fuel (.loadJavascriptObject self idxj) s1
          else (.ok .vnull, s1)
      let pkg := TiPath.resolve '/' [id, "package.json"]
      if filenameExists env pkg then
        andThen (step env fuel (.loadJavascriptObject self pkg) s) fun objv s1 =>
          let exp := exportsOfV s1 objv
          let mainV :=
            match exp with
            | .jsonV j => jGetField j "main"
            | .obj a => (objField s1 a "main").getD .undef
            | _ => .undef
          if objv.truthy ∧ exp.truthy ∧ mainV.truthy then
            match mainV with
            | .str mainS =>
              step env fuel (.loadAsFileOrDirectory self (TiPath.resolve '/' [id, mainS])) s1
            | _ =>
              -- `path.resolve(id, main)` rejects a non-string segment
              (.error (.typeError "Path must be a string."), s1)
          else afterMain s1
      else afterMain s
    | .loadJavascriptText self filename =>
      -- `Module.prototype.loadJavascriptText` (lines 921-929)
      let fresh : Unit → Except RunErr Value × LState := fun _ =>
        let p := newModule s filename (some self)
        andThen (step env fuel (.load p.1 filename none) p.2) fun _ s2 => (.ok (.modv p.1), s2)
      match lookupCache s filename with
      | some c => if c.truthy then (.ok c, s) else fresh ()
      | none => fresh ()
    | .loadJavascriptObject self filename =>
      -- `Module.prototype.loadJavascriptObject` (lines 937-952)
      let fresh : Unit → Except RunErr Value × LState := fun _ =>
        let p := newModule s filename (some self)
        let s2 := updMod p.2 p.1
          (fun r => { r with filename := some filename, pathDir := TiPath.dirname '/' filename })
        match env.assets filename with
        | none => (.error (.assetMissing filename), s2)
        | some src =>
          let s3 := putCache s2 filename (.modv p.1)
          match src with
          | .rawJson (some j) =>
            (.ok (.modv p.1),
              updMod s3 p.1 (fun r => { r with exportsVal := jvalToValue j, loaded := true }))
          | .rawJson none => (.error (.jsonParse filename), s3)
          | .jsSrc _ =>
            -- `JSON.parse` of a JavaScript program text: modelled as a parse
            -- failure (never reached by the resolution strategies)
            (.error (.jsonParse filename), s3)
      match lookupCache s filename with
      | some c => if c.truthy then (.ok c, s) else fresh ()
      | none => fresh ()
    | .load m filename source =>
      -- `Module.prototype.load` (lines 621-636): fields, then the cache
      -- insertion, then the body, then the `loaded` flag
      match getMod s m with
      | none => (.error .internal, s)
      | some rec =>
        if rec.loaded then (.error .alreadyLoaded, s)
        else
          let s1 := updMod s m (fun r =>
            { r with filename := some filename, pathDir := TiPath.dirname '/' filename,
                     paths := nodeModulesPaths (TiPath.dirname '/' filename) })
          match (match source with | some src => some src | none => env.assets filename) with
          | none => (.error (.assetMissing filename), s1)
          | some src =>
            let s2 := putCache s1 filename (.modv m)
            andThen (step env fuel (.runScript m src filename) s2) fun _ s3 =>
              (.ok .undef, updMod s3 m (fun r => { r with loaded := true }))
    | .runScript m source filename =>
      -- `Module.prototype._runScript` (lines 1024-1062): the entry module
      -- (id `.`, not a service) runs unwrapped in the global scope (and the
      -- inspector hook, when present, also just compiles and runs the same
      -- source); every other module runs inside the `Module.wrap` closure.
      -- Both roads execute the same body in this model.
      match getMod s m with
      | none => (.error .internal, s)
      | some rec =>
        match source with
        | .rawJson _ => (.error (.badSource filename), s)
        | .jsSrc body =>
          if rec.id = "." ∧ ¬rec.isService then
            step env fuel (.runBody m body) { s with globalRequireSet := true }
          else step env fuel (.runBody m body) s
    | .runBody m stmts =>
      match stmts with
      | [] => (.ok .undef, s)
      | st :: rest =>
        match st with
        | .exprStmt e =>
          andThen (step env fuel (.evalE m e) s) fun _ s1 =>
            step env fuel (.runBody m rest) s1
        | .setExport k e =>
          andThen (step env fuel (.evalE m e) s) fun v s1 =>
            match getMod s1 m with
            | none => (.error .internal, s1)
            | some r =>
              match r.exportsVal with
              | .obj a => step env fuel (.runBody m rest) (setObjField s1 a k v)
              | _ => step env fuel (.runBody m rest) s1
        | .throwStmt e =>
          andThen (step env fuel (.evalE m e) s) fun v s1 => (.error (.thrown v), s1)
    | .evalE m e =>
      match e with
      | .lit v => (.ok v, s)
      | .requireE spec => step env fuel (.require m spec) s
      | .getField e1 k =>
        andThen (step env fuel (.evalE m e1) s) fun v s1 =>
          match v with
          | .obj a => (.ok ((objField s1 a k).getD .undef), s1)
          | .jsonV j => (.ok (jGetField j k), s1)
          | .modv _ => (.ok (if k = "exports" then exportsOfV s1 v else .undef), s1)
          | .undef => (.error (.typeError "Cannot read property of undefined"), s1)
          | .vnull => (.error (.typeError "Cannot read property of null"), s1)
          | _ => (.ok .undef, s1)

/-- `Module.prototype.require` as an entry point. -/
def requireF (env : KEnv) (fuel : Nat) (self : Nat) (request : String) (s : LState) :
    Except RunErr Value × LState :=
  step env fuel (.require self request) s

/-- `Module.prototype.loadAsFile` as an entry point. -/
def loadAsFileF (env : KEnv) (fuel : Nat) (self : Nat) (id : String) (s : LState) :
    Except RunErr Value × LState :=
  step env fuel (.loadAsFile self id) s

/-- `Module.prototype.loadJavascriptText` as an entry point. -/
def loadJavascriptTextF (env : KEnv) (fuel : Nat) (self : Nat) (filename : String) (s : LState) :
    Except RunErr Value × LState :=
  step env fuel (.loadJavascriptText self filename) s

/-- `Module.runModule(source, filename, activityOrService)`
    (lines 1092-1109). -/
def runModule (env : KEnv) (fuel : Nat) (source : SourceText) (filename : String)
    (isService : Bool) (s : LState) : Except RunErr Value × LState :=
  let id := match s.mainMod with | none => "." | some _ => filename
  let p := newModule s id none
  let s2 := updMod p.2 p.1 (fun r => { r with isService := isService })
  let s3 := match s2.mainMod with | none => { s2 with mainMod := some p.1 } | some _ => s2
  let filename2 := replaceFirst filename "Resources/" "/"
  match step env fuel (.load p.1 filename2 (some source)) s3 with
  | (.ok _, s4) => (.ok (.modv p.1), s4)
  | e => e

/-- The pristine loader state. -/
def emptyState : LState :=
  { mods := [], objs := [], cache := [], mainMod := none, globalRequireSet := false, next := 0 }

/-- The state right after the cache insertion inside `load`
    (source lines 625-633): module fields set, then
    `Module.cache[this.filename] = this`. -/
def loadPreState (m : Nat) (filename : String) (s : LState) : LState :=
  putCache
    (updMod s m (fun r =>
      { r with filename := some filename, pathDir := TiPath.dirname '/' filename,
               paths := nodeModulesPaths (TiPath.dirname '/' filename) }))
    filename (.modv m)

/-- The bare-specifier pipeline of `require` (source lines 740-788),
    factored out verbatim: core module, CommonJS sibling convention,
    `node_modules` walk, legacy absolute fallback, final
    `Requested module not found`.  It never reads the requesting module's
    directory (`pathDir`); only its precomputed `paths` list. -/
def requireBare (env : KEnv) (fuel : Nat) (self : Nat) (request : String) (s : LState) :
    Except RunErr Value × LState :=
  andThen (step env fuel (.loadCoreModule self request) s) fun core s1 =>
    if core.truthy then (.ok core, s1)
    else
      let afterSibling : LState → Except RunErr Value × LState := fun s2 =>
        match getMod s2 self with
        | none => (.error .internal, s2)
        | some rec2 =>
          andThen (step env fuel (.loadNodeModules self request rec2.paths) s2)
            fun nm s3 =>
              if nm.truthy then (.ok (exportsOfV s3 nm), s3)
              else
                andThen (step env fuel
                    (.loadAsFileOrDirectory self (TiPath.normalize '/' ("/" ++ request))) s3)
                  fun leg s4 =>
                    if leg.truthy then (.ok (exportsOfV s4 leg), s4)
                    else (.error (.moduleNotFound request), s4)
      if jsIndexOfChar request '/' = none then
        let filename := "/" ++ request ++ "/" ++ request ++ ".js"
        let afterExact : LState → Except RunErr Value × LState := fun s2 =>
          andThen (step env fuel (.loadAsDirectory self ("/" ++ request)) s2)
            fun d s3 =>
              if d.truthy then (.ok (exportsOfV s3 d), s3) else afterSibling s3
        if filenameExists env filename then
          andThen (step env fuel (.loadJavascriptText self filename) s1) fun t s2 =>
            if t.truthy then (.ok (exportsOfV s2 t), s2) else afterExact s2
        else afterExact s1
      else afterSibling s1

/-- The fresh-load path of `loadJavascriptText` (source lines 926-928),
    factored out verbatim: a new module is created and loaded under the
    filename. -/
def freshTextLoad (env : KEnv) (fuel : Nat) (self : Nat) (filename : String) (s : LState) :
    Except RunErr Value × LState :=
  let p := newModule s filename (some self)
  andThen (step env fuel (.load p.1 filename none) p.2) fun _ s2 => (.ok (.modv p.1), s2)

/-- Which loader a `loadAsFile` probe dispatches to. -/
inductive LoadKind where
  | text
  | json
deriving DecidableEq

/-- The `loadAsFile` probe discipline as the source implements it
    (and as claim C6 must be amended to state): the exact id first — sent
    to the JSON loader only when it is longer than five characters *and*
    its last four characters are `json` — then `id + ".js"` as JavaScript,
    then `id + ".json"` as JSON; the first existing candidate wins and
    nothing else is probed. -/
def loadAsFileProbeAmended (ex : String → Bool) (id : String) : Option (LoadKind × String) :=
  if ex id then
    if 5 < JsStr.slen id ∧ JsStr.jsSliceFrom id (-4) = "json" then some (.json, id)
    else some (.text, id)
  else if ex (id ++ ".js") then some (.text, id ++ ".js")
  else if ex (id ++ ".json") then some (.json, id ++ ".json")
  else none

/-- The probe discipline exactly as claim C6 states it: the exact id is
    loaded as JSON whenever it *ends in* `json`. -/
def loadAsFileProbeClaimed (ex : String → Bool) (id : String) : Option (LoadKind × String) :=
  if ex id then
    if JsStr.strEndsWith id "json" then some (.json, id) else some (.text, id)
  else if ex (id ++ ".js") then some (.text, id ++ ".js")
  else if ex (id ++ ".json") then some (.json, id ++ ".json")
  else none

end Kernel

/- Concrete environments and states used to exercise the loader claims. -/

namespace Scenarios

open Kernel

/-- An environment with no assets and no native bindings except where a
    scenario provides them. -/
def envEmptyBindings (fileIndex : List String) (assets : String → Option SourceText) : KEnv :=
  { fileIndex := fileIndex, assets := assets,
    externalBinding := fun _ => none,
    isExternalCommonJsModule := fun _ => false,
    getExternalCommonJsModule := fun _ => none }

/-- A loader state holding one already-loaded entry module (address 1,
    exports object 0) whose directory is `/`. -/
def baseState : LState :=
  { mods := [(1, { id := ".", exportsVal := .obj 0, parent := none, filename := some "/app.js",
                   loaded := true, wrapperCache := [], isService := false, pathDir := "/",
                   paths := ["/node_modules"] })]
    objs := [(0, [])], cache := [], mainMod := some 1, globalRequireSet := true, next := 2 }

/-- Like `baseState` but the requesting module lives in `/dir`. -/
def dirState : LState :=
  { mods := [(1, { id := ".", exportsVal := .obj 0, parent := none, filename := some "/dir/main.js",
                   loaded := true, wrapperCache := [], isService := false, pathDir := "/dir",
                   paths := ["/dir/node_modules", "/node_modules"] })]
    objs := [(0, [])], cache := [], mainMod := some 1, globalRequireSet := true, next := 2 }

/-- C1 counterexample environment: a native binding `m` shipping an
    external CommonJS sub-module `m/s`. -/
def envNativeCjs : KEnv :=
  { fileIndex := []
    assets := fun _ => none
    externalBinding := fun n => if n = "m" then some (.str "nativeBinding") else none
    isExternalCommonJsModule := fun n => n = "m"
    getExternalCommonJsModule := fun i =>
      if i = "m/s" then some (.jsSrc [.setExport "k" (.lit (.num 1))]) else none }

/-- C1 amended-law environment: one plain file module `/x.js`. -/
def envRelX : KEnv :=
  envEmptyBindings ["Resources/x.js"]
    (fun fn => if fn = "/x.js" then some (.jsSrc [.setExport "n" (.lit (.num 7))]) else none)

/-- C2 circular-require environment: `/a.js` with body
    `exports.val = 1; require('./b');` and `/b.js` with body
    `const a = require('./a'); exports.sawVal = a.val;`. -/
def envCircular : KEnv :=
  envEmptyBindings ["Resources/a.js", "Resources/b.js"]
    (fun fn =>
      if fn = "/a.js" then
        some (.jsSrc [.setExport "val" (.lit (.num 1)), .exprStmt (.requireE "./b")])
      else if fn = "/b.js" then
        some (.jsSrc [.setExport "sawVal" (.getField (.requireE "./a") "val")])
      else none)

/-- The C2 entry module source: `require('./a');`. -/
def entrySource : SourceText := .jsSrc [.exprStmt (.requireE "./a")]

/-- The complete C2 run: loading A first via the entry module. -/
def c2Run : Except RunErr Value × LState :=
  runModule envCircular 40 entrySource "/app.js" false emptyState

/-- C5 counterexample environment: only `/dir/..x.js` exists. -/
def envDotDotX : KEnv :=
  envEmptyBindings ["Resources/dir/..x.js"]
    (fun fn =>
      if fn = "/dir/..x.js" then some (.jsSrc [.setExport "here" (.lit (.num 1))]) else none)

/-- C6 counterexample environment: an existing asset named exactly `/json`
    whose contents are a JavaScript body. -/
def envSlashJson : KEnv :=
  envEmptyBindings ["Resources/json"]
    (fun fn => if fn = "/json" then some (.jsSrc [.setExport "viaJs" (.lit (.num 1))]) else none)

/-- C7 environment: `/t.js` has a body that throws. -/
def envThrowing : KEnv :=
  envEmptyBindings ["Resources/t.js"]
    (fun fn => if fn = "/t.js" then some (.jsSrc [.throwStmt (.lit (.str "boom"))]) else none)

/-- The C7 run: requiring the throwing module. -/
def c7Run : Except RunErr Value × LState :=
  requireF envThrowing 30 1 "/t" baseState

end Scenarios

/- Spec-side definitions used by the claim statements. -/

namespace TiPath

/-- The message `assertArgumentType` produces for a non-string `path`. -/
def pathArgError (v : JSVal) : PathErr :=
  .typeError ("The \"path\" argument must be of type string. Received type " ++ v.typeof)

/-- The message `assertArgumentType` produces for a non-string `ext`. -/
def extArgError (v : JSVal) : PathErr :=
  .typeError ("The \"ext\" argument must be of type string. Received type " ++ v.typeof)

/-- The message `assertArgumentType` produces for a non-string `from`. -/
def fromArgError (v : JSVal) : PathErr :=
  .typeError ("The \"from\" argument must be of type string. Received type " ++ v.typeof)

/-- The message `assertArgumentType` produces for a non-string `to`. -/
def toArgError (v : JSVal) : PathErr :=
  .typeError ("The \"to\" argument must be of type string. Received type " ++ v.typeof)

/-- The message `assertSegment` produces for a non-string segment. -/
def segArgError (v : JSVal) : PathErr :=
  .typeError ("Path must be a string. Received a value of type " ++ v.typeof)

/-- A well-formed path component: non-empty, not a dot segment, and free of
    separators.  Already-absolute normalized POSIX paths without a trailing
    separator are exactly the `mkAbs` images of lists of such components. -/
def wfSeg (s : String) : Prop :=
  s ≠ "" ∧ s ≠ "." ∧ s ≠ ".." ∧ ('/' : Char) ∉ s.data

instance (s : String) : Decidable (wfSeg s) := by
  unfold wfSeg
  infer_instance

/-- The character list `/c₁/c₂.../cₙ` of an absolute path with the given
    components. -/
def mkAbsL (segs : List String) : List Char :=
  (segs.map (fun s => '/' :: s.data)).flatten

/-- The absolute POSIX path with the given components (the root `/` for an
    empty list). -/
def mkAbs (segs : List String) : String :=
  if segs = [] then "/" else ⟨mkAbsL segs⟩

end TiPath

namespace LiveView

/-- The `fullPath` the LiveView `Module.require` resolves a specifier to
    before consulting the cache (app.js lines 543-548). -/
def lvFullPath (compileList : List String) (id : String) : String :=
  if JsStr.jsIndexOfStr id "./" = some 0 ∨ JsStr.jsIndexOfStr id "../" = some 0 then
    toAbsolute ((compileList.getLast?).getD "") id
  else id

/-- The cache probe of the LiveView `Module.require` as amended: the exact
    resolved id, then the id with the *first occurrence* of `/index`
    removed, then the id with `/index` appended (app.js line 550). -/
def lvThreeKeyProbe (cache : List (String × Nat)) (fullPath : String) : Option Nat :=
  (getCached cache fullPath).orElse fun _ =>
    (getCached cache (JsStr.replaceFirst fullPath "/index" "")).orElse fun _ =>
      getCached cache (fullPath ++ "/index")

/-- The second cache key exactly as claim C3 words it: the id with a
    *trailing* `/index` stripped. -/
def trailingIndexStripped (fullPath : String) : String :=
  if JsStr.strEndsWith fullPath "/index" then
    JsStr.jsSliceNN fullPath 0 (JsStr.slen fullPath - 6)
  else fullPath

end LiveView

/- Shared helper lemmas. -/

section Helpers

open JsStr TiPath

theorem slen_ne_zero {p : String} (h : p ≠ "") : slen p ≠ 0 := by
  cases p with
  | mk d =>
    intro h0
    apply h
    have hd : d = [] := List.length_eq_zero.mp h0
    subst hd
    rfl

theorem lastIdxL_spec (c : Char) :
    ∀ l : List Char, ∀ i, lastIdxL c l = some i → i < l.length ∧ l.get? i = some c := by
  intro l
  induction l with
  | nil => intro i h; simp [lastIdxL] at h
  | cons a as ih =>
    intro i h
    unfold lastIdxL at h
    cases hrec : lastIdxL c as with
    | some k =>
      rw [hrec] at h
      injection h with h
      subst h
      obtain ⟨h1, h2⟩ := ih k hrec
      refine ⟨by simp only [List.length_cons]; omega, by simpa using h2⟩
    | none =>
      rw [hrec] at h
      by_cases hac : a = c
      · rw [if_pos hac] at h
        injection h with h
        subst h
        exact ⟨by simp only [List.length_cons]; omega, by simp [hac]⟩
      · rw [if_neg hac] at h
        exact absurd h (by simp)

theorem endsWith_last {p : String} (h : strEndsWith p "/" = true) :
    p.data.get? (p.data.length - 1) = some '/' := by
  unfold strEndsWith at h
  have hsuf : ("/" : String).data <:+ p.data := List.isSuffixOf_iff_suffix.mp h
  obtain ⟨t, ht⟩ := hsuf
  rw [← ht]
  have hd : ("/" : String).data = ['/'] := rfl
  rw [hd]
  rw [List.get?_eq_getElem?]
  rw [List.length_append]
  simp only [List.length_cons, List.length_nil]
  rw [List.getElem?_append_right (by omega)]
  simp

theorem jsSliceNN_ne_empty {p : String} {a b : Nat} (hab : a < b) (hlen : a < p.data.length) :
    jsSliceNN p a b ≠ "" := by
  unfold jsSliceNN
  intro h
  have hd : ((p.data.take b).drop a) = [] := congrArg String.data h
  have hl : (p.data.take b).length - a = 0 := by
    rw [← List.length_drop, hd]
    rfl
  rw [List.length_take] at hl
  omega

theorem data_append (a b : String) : (a ++ b).data = a.data ++ b.data := rfl

theorem normSegsAux_ne_dot :
    ∀ (l acc : List String), (∀ x ∈ acc, x ≠ ".") →
      ∀ x ∈ normSegsAux acc l, x ≠ "." := by
  intro l
  induction l with
  | nil => intro acc hacc x hx; exact hacc x hx
  | cons seg rest ih =>
    intro acc hacc x hx
    unfold normSegsAux at hx
    by_cases h1 : seg = "" ∨ seg = "."
    · rw [if_pos h1] at hx
      exact ih acc hacc x hx
    · rw [if_neg h1] at hx
      by_cases h2 : seg = ".."
      · rw [if_pos h2] at hx
        refine ih acc.dropLast ?_ x hx
        intro y hy
        exact hacc y ((List.dropLast_sublist acc).subset hy)
      · rw [if_neg h2] at hx
        refine ih (acc ++ [seg]) ?_ x hx
        intro y hy
        rcases List.mem_append.mp hy with hy | hy
        · exact hacc y hy
        · rw [List.mem_singleton.mp hy]
          intro hd
          exact h1 (Or.inr hd)

theorem joinStr_ne_dot (R : List String) (hR : ∀ x ∈ R, x ≠ ".") :
    joinStr '/' R ≠ "." := by
  match R with
  | [] => intro h; exact absurd (congrArg String.data h) (by simp [joinStr, joinL])
  | [x] =>
    intro h
    apply hR x (by simp)
    have hd : x.data = ['.'] := by
      have := congrArg String.data h
      simpa [joinStr, joinL] using this
    cases x
    simp_all
  | x :: y :: t =>
    intro h
    have hd : x.data ++ '/' :: joinL '/' ((y :: t).map String.data) = ['.'] := by
      have := congrArg String.data h
      simpa [joinStr, joinL] using this
    cases hx : x.data with
    | nil =>
      rw [hx] at hd
      simp at hd
    | cons c t2 =>
      rw [hx] at hd
      have := congrArg List.length hd
      simp [List.length_append] at this

end Helpers

section KernelHelpers

open Kernel

theorem find?_map_overwrite (k : String) (v : Value) :
    ∀ l : List (String × Value), (l.find? (fun e => e.1 = k)).isSome = true →
      ((l.map (fun e => if e.1 = k then (e.1, v) else e)).find? (fun e => e.1 = k)) = some (k, v) := by
  intro l
  induction l with
  | nil => simp
  | cons a rest ih =>
    intro h
    by_cases hk : a.1 = k
    · rw [List.map_cons, if_pos hk, List.find?_cons_of_pos _ (by simp [hk]), hk]
    · rw [List.find?_cons_of_neg _ (by simp [hk])] at h
      rw [List.map_cons, if_neg hk, List.find?_cons_of_neg _ (by simp [hk])]
      exact ih h

theorem find?_append_insert (k : String) (v : Value) :
    ∀ l : List (String × Value), l.find? (fun e => e.1 = k) = none →
      ((l ++ [(k, v)]).find? (fun e => e.1 = k)) = some (k, v) := by
  intro l
  induction l with
  | nil => simp
  | cons a rest ih =>
    intro h
    by_cases hk : a.1 = k
    · rw [List.find?_cons_of_pos _ (by simp [hk])] at h
      exact absurd h (by simp)
    · rw [List.find?_cons_of_neg _ (by simp [hk])] at h
      rw [List.cons_append, List.find?_cons_of_neg _ (by simp [hk])]
      exact ih h

theorem find?_setAssocV (l : List (String × Value)) (k : String) (v : Value) :
    (setAssocV l k v).find? (fun e => e.1 = k) = some (k, v) := by
  unfold setAssocV
  by_cases h : (l.find? (fun e => e.1 = k)).isSome
  · rw [if_pos h]
    exact find?_map_overwrite k v l h
  · rw [if_neg h]
    exact find?_append_insert k v l (by rwa [Option.not_isSome_iff_eq_none] at h)

theorem lookupCache_putCache (s : LState) (k : String) (v : Value) :
    lookupCache (putCache s k v) k = some v := by
  simp [lookupCache, putCache, find?_setAssocV]

end KernelHelpers

/- Claim theorems. -/

section ClaimC9

open JsStr TiPath

/-- C9, counterexample: the claim asserts `extname("/a/.bashrc") == ""`,
    but the source only ignores a dot at index 0 of the *whole path*, so it
    returns `".bashrc"`. -/
theorem c9_bashrc_counterexample :
    Posix.extname "/a/.bashrc" = ".bashrc" ∧ (".bashrc" : String) ≠ "" := by
  exact ⟨rfl, by decide⟩

/-- C9, amended: `extname` returns the empty string exactly when the last
    dot of the whole path is absent or at index 0; a dot that merely leads
    the basename is *not* ignored, so `extname("/a/.bashrc") = ".bashrc"`
    while `extname(".bashrc") = ""`. -/
theorem c9_extname_amended :
    Posix.extname ".bashrc" = "" ∧
    Posix.extname "/a/.bashrc" = ".bashrc" ∧
    ∀ p : String,
      Posix.extname p = "" ↔ (jsLastIndexOf p '.' = none ∨ jsLastIndexOf p '.' = some 0) := by
  refine ⟨rfl, rfl, ?_⟩
  intro p
  constructor
  · intro h
    by_contra hc
    push_neg at hc
    obtain ⟨h1, h2⟩ := hc
    cases hli : jsLastIndexOf p '.' with
    | none => exact h1 hli
    | some i =>
      have hi0 : i ≠ 0 := fun h0 => h2 (h0 ▸ hli)
      obtain ⟨hlt, hget⟩ := lastIdxL_spec '.' p.data i hli
      have hx : Posix.extname p =
          jsSliceNN p i (if strEndsWith p (csStr Posix.sep) = true then slen p - 1 else slen p) := by
        unfold Posix.extname TiPath.extname
        rw [hli]
        simp only [if_neg hi0]
      rw [hx] at h
      by_cases htr : strEndsWith p (csStr Posix.sep) = true
      · rw [if_pos htr] at h
        have hne : i ≠ p.data.length - 1 := by
          intro he
          have hl := endsWith_last htr
          rw [← he, hget] at hl
          simp at hl
        exact jsSliceNN_ne_empty (a := i) (by unfold slen; omega) (by omega) h
      · rw [if_neg htr] at h
        exact jsSliceNN_ne_empty (a := i) (by unfold slen; omega) (by omega) h
  · intro h
    cases h with
    | inl h =>
      unfold Posix.extname TiPath.extname
      rw [h]
    | inr h =>
      unfold Posix.extname TiPath.extname
      rw [h]
      rfl

end ClaimC9

section ClaimC10

open JsStr TiPath

/-- C10: a non-empty relative path whose segments fully cancel under the
    normalization loop maps to `""` without a trailing separator and to the
    bare separator `"/"` with one, and the zero-length input is the only
    one that normalizes to `"."`. -/
theorem c10_normalize_cancellation :
    (∀ p : String, p ≠ "" → strStartsWith p "/" = false →
      normSegsAux [] (jsSplitChar '/' p) = [] →
      Posix.normalize p = if strEndsWith p "/" = true then "/" else "") ∧
    (∀ q : String, Posix.normalize q = "." ↔ q = "") := by
  constructor
  · intro p hne hlead hcancel
    have hlead2 : strStartsWith p (csStr '/') = false := hlead
    unfold Posix.normalize Posix.sep TiPath.normalize
    rw [if_neg (slen_ne_zero hne)]
    simp only [if_neg (show ¬(('/' : Char) = '\\') by decide), hlead2, hcancel,
      Bool.false_eq_true, if_false, false_and, and_false]
    by_cases htr : strEndsWith p (csStr '/') = true
    · rw [if_pos htr]
      have h2 : strEndsWith p "/" = true := htr
      rw [h2]
      rfl
    · rw [if_neg htr]
      have h2 : strEndsWith p "/" = false := by
        revert htr
        have hcs : csStr '/' = "/" := rfl
        rw [hcs]
        cases strEndsWith p "/" <;> simp
      rw [h2]
      rfl
  · intro q
    constructor
    · intro h
      by_contra hq
      unfold Posix.normalize Posix.sep TiPath.normalize at h
      rw [if_neg (slen_ne_zero hq)] at h
      simp only [if_neg (show ¬(('/' : Char) = '\\') by decide)] at h
      rw [if_neg (show ¬(strStartsWith q (csStr '/') = true ∧ ('/' : Char) = '\\' ∧
          2 < slen q ∧ charAt q 1 = some '\\') from fun hc => absurd hc.2.1 (by decide))] at h
      set R := normSegsAux [] (jsSplitChar '/' q) with hR
      have hRd : ∀ x ∈ R, x ≠ "." := normSegsAux_ne_dot _ [] (by simp)
      by_cases hl : strStartsWith q (csStr '/') = true
      · rw [if_pos hl] at h
        by_cases ht : strEndsWith q (csStr '/') = true
        · rw [if_pos ht] at h
          have hd := congrArg String.data h
          rw [data_append, data_append] at hd
          have hone : (csStr '/').data = ['/'] := rfl
          rw [hone] at hd
          simp at hd
        · rw [if_neg ht] at h
          have hd := congrArg String.data h
          rw [data_append] at hd
          have hone : (csStr '/').data = ['/'] := rfl
          rw [hone] at hd
          simp at hd
      · rw [if_neg hl] at h
        by_cases ht : strEndsWith q (csStr '/') = true
        · rw [if_pos ht] at h
          have hd := congrArg String.data h
          rw [data_append, data_append] at hd
          have h0 : ("" : String).data = [] := rfl
          have h1 : (csStr '/').data = ['/'] := rfl
          rw [h0, h1] at hd
          simp only [List.nil_append] at hd
          rcases hj : (joinStr '/' R).data with _ | ⟨c, t⟩
          · rw [hj] at hd
            simp at hd
          · rw [hj] at hd
            have := congrArg List.length hd
            simp [List.length_append] at this
        · rw [if_neg ht] at h
          have hemp : ("" : String) ++ joinStr '/' R = joinStr '/' R := by
            cases hjj : joinStr '/' R
            rfl
          rw [hemp] at h
          exact joinStr_ne_dot R hRd h
    · intro h
      rw [h]
      rfl

/-- C10, witness: concrete fully-cancelling inputs. -/
theorem c10_normalize_cancellation_witness :
    Posix.normalize "a/.." = "" ∧ Posix.normalize "a/../" = "/" ∧ Posix.normalize "" = "." := by
  refine ⟨?_, ?_, ?_⟩
  · have h := c10_normalize_cancellation.1 "a/.." (by decide) (by decide) (by decide)
    simpa using h
  · have h := c10_normalize_cancellation.1 "a/../" (by decide) (by decide) (by decide)
    simpa using h
  · exact (c10_normalize_cancellation.2 "").mpr rfl

end ClaimC10

section ClaimC8

open TiPath

/-- C8, counterexample: the claim asserts every path-library function
    throws a type-mismatch failure on a non-string path, but
    `toNamespacedPath` returns a non-string argument unchanged, without
    throwing. -/
theorem c8_tonamespaced_counterexample :
    toNamespacedPathWin (.num 5) = JSVal.num 5 ∧ (JSVal.num 5).typeof ≠ "string" := by
  exact ⟨rfl, by decide⟩

/-- C8, amended: every string-taking path-library function throws the
    synchronous type-mismatch failure on a non-string path argument, and
    `join` validates every segment — but `resolve` validates segments only
    right-to-left up to the first absolute one (a non-string to the left of
    an absolute segment is accepted), and `toNamespacedPath` (both the
    win32 implementation and the posix no-op) returns a non-string
    argument unchanged instead of throwing. -/
theorem c8_invalid_argument_amended :
    (∀ (isPosix : Bool) (v : JSVal), v.typeof ≠ "string" →
      isAbsoluteJS isPosix v = .error (pathArgError v)) ∧
    (∀ (sep : Char) (v : JSVal), v.typeof ≠ "string" →
      dirnameJS sep v = .error (pathArgError v)) ∧
    (∀ (sep : Char) (v : JSVal) (ext : Option JSVal), v.typeof ≠ "string" →
      basenameJS sep v ext = .error (pathArgError v)) ∧
    (∀ (sep : Char) (p : String) (e : JSVal), e.typeof ≠ "string" →
      basenameJS sep (.str p) (some e) = .error (extArgError e)) ∧
    (∀ (sep : Char) (v : JSVal), v.typeof ≠ "string" →
      extnameJS sep v = .error (pathArgError v)) ∧
    (∀ (sep : Char) (v : JSVal), v.typeof ≠ "string" →
      normalizeJS sep v = .error (pathArgError v)) ∧
    (∀ (sep : Char) (v : JSVal), v.typeof ≠ "string" →
      parseJS sep v = .error (pathArgError v)) ∧
    (∀ (sep : Char) (v w : JSVal), v.typeof ≠ "string" →
      relativeJS sep v w = .error (fromArgError v)) ∧
    (∀ (sep : Char) (p : String) (w : JSVal), w.typeof ≠ "string" →
      relativeJS sep (.str p) w = .error (toArgError w)) ∧
    (∀ (sep : Char) (vs : List JSVal), (∃ v ∈ vs, v.typeof ≠ "string") →
      ∃ msg, joinJS sep vs = .error (.typeError msg)) ∧
    (∀ (sep : Char) (v : JSVal), v.typeof ≠ "string" →
      resolveJS sep [v] = .error (segArgError v)) ∧
    (resolveJS '/' [.num 5, .str "/a"] = .ok "/a") ∧
    (∀ v : JSVal, v.typeof ≠ "string" → toNamespacedPathWin v = v ∧ toNamespacedPathPosix v = v) := by
  have hjoin : ∀ (vs : List JSVal) (acc : List String), (∃ v ∈ vs, v.typeof ≠ "string") →
      ∃ msg, joinGoJS vs acc = .error (.typeError msg) := by
    intro vs
    induction vs with
    | nil => intro acc h; simp at h
    | cons v rest ih =>
      intro acc h
      match v with
      | .str s =>
        obtain ⟨w, hw, hwt⟩ := h
        rcases List.mem_cons.mp hw with rfl | hw2
        · exact absurd rfl hwt
        · obtain ⟨msg, hm⟩ := ih (if s = "" then acc else acc ++ [s]) ⟨w, hw2, hwt⟩
          exact ⟨msg, by simpa [joinGoJS, assertSegment] using hm⟩
      | .num n => exact ⟨_, rfl⟩
      | .boolV b => exact ⟨_, rfl⟩
      | .undef => exact ⟨_, rfl⟩
      | .objV => exact ⟨_, rfl⟩
  refine ⟨?_, ?_, ?_, ?_, ?_, ?_, ?_, ?_, ?_, ?_, ?_, rfl, ?_⟩
  · intro isPosix v h
    match v with
    | .str s => exact absurd rfl h
    | .num n => rfl
    | .boolV b => rfl
    | .undef => rfl
    | .objV => rfl
  · intro sep v h
    match v with
    | .str s => exact absurd rfl h
    | .num n => rfl
    | .boolV b => rfl
    | .undef => rfl
    | .objV => rfl
  · intro sep v ext h
    match v with
    | .str s => exact absurd rfl h
    | .num n => cases ext <;> rfl
    | .boolV b => cases ext <;> rfl
    | .undef => cases ext <;> rfl
    | .objV => cases ext <;> rfl
  · intro sep p e h
    match e with
    | .str s => exact absurd rfl h
    | .num n => rfl
    | .boolV b => rfl
    | .undef => rfl
    | .objV => rfl
  · intro sep v h
    match v with
    | .str s => exact absurd rfl h
    | .num n => rfl
    | .boolV b => rfl
    | .undef => rfl
    | .objV => rfl
  · intro sep v h
    match v with
    | .str s => exact absurd rfl h
    | .num n => rfl
    | .boolV b => rfl
    | .undef => rfl
    | .objV => rfl
  · intro sep v h
    match v with
    | .str s => exact absurd rfl h
    | .num n => rfl
    | .boolV b => rfl
    | .undef => rfl
    | .objV => rfl
  · intro sep v w h
    match v with
    | .str s => exact absurd rfl h
    | .num n => rfl
    | .boolV b => rfl
    | .undef => rfl
    | .objV => rfl
  · intro sep p w h
    match w with
    | .str s => exact absurd rfl h
    | .num n => rfl
    | .boolV b => rfl
    | .undef => rfl
    | .objV => rfl
  · intro sep vs h
    obtain ⟨msg, hm⟩ := hjoin vs [] h
    exact ⟨msg, by simp [joinJS, hm]⟩
  · intro sep v h
    match v with
    | .str s => exact absurd rfl h
    | .num n => rfl
    | .boolV b => rfl
    | .undef => rfl
    | .objV => rfl
  · intro v h
    refine ⟨?_, rfl⟩
    match v with
    | .str s => exact absurd rfl h
    | .num n => rfl
    | .boolV b => rfl
    | .undef => rfl
    | .objV => rfl

/-- C8, witness: concrete non-string inputs. -/
theorem c8_invalid_argument_amended_witness :
    isAbsoluteJS true (.num 0) = .error (pathArgError (.num 0)) ∧
    (∃ msg, joinJS '/' [.str "a", .undef] = .error (.typeError msg)) ∧
    resolveJS '/' [.undef] = .error (segArgError .undef) ∧
    toNamespacedPathWin JSVal.objV = JSVal.objV := by
  refine ⟨?_, ?_, ?_, ?_⟩
  · exact c8_invalid_argument_amended.1 true (.num 0) (by decide)
  · exact c8_invalid_argument_amended.2.2.2.2.2.2.2.2.2.1 '/' [.str "a", .undef]
      ⟨.undef, by simp, by decide⟩
  · exact c8_invalid_argument_amended.2.2.2.2.2.2.2.2.2.2.1 '/' .undef (by decide)
  · exact (c8_invalid_argument_amended.2.2.2.2.2.2.2.2.2.2.2.2 JSVal.objV (by decide)).1

end ClaimC8

section ClaimC1

open Kernel JsStr Scenarios

/-- C1, counterexample: a bare id naming an external native module's
    companion CommonJS sub-module (`m/s`) is re-evaluated on every
    `require`: the two calls return two distinct freshly-allocated exports
    objects, never the cached one. -/
theorem c1_native_companion_counterexample :
    (requireF envNativeCjs 30 1 "m/s" baseState).1 = .ok (.obj 2) ∧
    (requireF envNativeCjs 30 1 "m/s" (requireF envNativeCjs 30 1 "m/s" baseState).2).1 =
      .ok (.obj 4) ∧
    Value.obj 2 ≠ Value.obj 4 := by
  exact ⟨rfl, rfl, by decide⟩

/-- C1, amended: identity-stable memoization holds for file-backed
    modules — a `require` that reaches a truthy cached module record under
    its resolved filename returns that record without re-evaluation, and
    two `require("./x")` calls from the same module return the identical
    exports reference with an unchanged state — but an external native
    module's companion CommonJS sub-module is re-evaluated on every call
    (see the counterexample). -/
theorem c1_memoization_amended :
    (∀ (env : KEnv) (n self : Nat) (fn : String) (s : LState) (c : Value),
      lookupCache s fn = some c → c.truthy = true →
      loadJavascriptTextF env (n + 1) self fn s = (.ok c, s)) ∧
    requireF envRelX 30 1 "./x" (requireF envRelX 30 1 "./x" baseState).2 =
      requireF envRelX 30 1 "./x" baseState ∧
    (requireF envRelX 30 1 "./x" baseState).1 = .ok (.obj 2) := by
  refine ⟨?_, rfl, rfl⟩
  intro env n self fn s c h ht
  simp only [loadJavascriptTextF, step, h, ht, if_true]

/-- C1, witness: the cache-hit law at a concrete state. -/
theorem c1_memoization_amended_witness :
    loadJavascriptTextF envRelX 3 1 "/q.js" (putCache baseState "/q.js" (.modv 1))
      = (.ok (.modv 1), putCache baseState "/q.js" (.modv 1)) :=
  c1_memoization_amended.1 envRelX 2 1 "/q.js" (putCache baseState "/q.js" (.modv 1))
    (.modv 1) rfl rfl

end ClaimC1

section ClaimC2

open Kernel JsStr Scenarios

/-- C2: `load` inserts the module record into the global cache strictly
    before the body runs (the state handed to `_runScript` already maps the
    filename to the record), and in the circular scenario — `/a.js` with
    body `exports.val = 1; require('./b')` and `/b.js` with body
    `exports.sawVal = require('./a').val` — loading A terminates and B
    observes A's in-progress exports, ending with `B.sawVal = 1`. -/
theorem c2_cache_before_execute :
    (∀ (env : KEnv) (n m : Nat) (fn : String) (src : SourceText) (s : LState)
        (rec : ModuleRec), getMod s m = some rec → rec.loaded = false →
      lookupCache (loadPreState m fn s) fn = some (.modv m) ∧
      step env (n + 1) (.load m fn (some src)) s =
        andThen (step env n (.runScript m src fn) (loadPreState m fn s))
          (fun _ s3 => (.ok .undef, updMod s3 m (fun r => { r with loaded := true })))) ∧
    c2Run.1 = .ok (.modv 1) ∧
    objField c2Run.2 4 "sawVal" = some (.num 1) ∧
    objField c2Run.2 2 "val" = some (.num 1) ∧
    lookupCache c2Run.2 "/a.js" = some (.modv 3) ∧
    lookupCache c2Run.2 "/b.js" = some (.modv 5) ∧
    (getMod c2Run.2 3).map (fun r => r.exportsVal) = some (.obj 2) ∧
    (getMod c2Run.2 5).map (fun r => r.exportsVal) = some (.obj 4) := by
  refine ⟨?_, rfl, rfl, rfl, rfl, rfl, rfl, rfl⟩
  intro env n m fn src s rec h hl
  constructor
  · exact lookupCache_putCache _ fn (.modv m)
  · simp only [step, h, hl]
    rfl

/-- C2, witness: the cache-insertion law at a concrete fresh module. -/
theorem c2_cache_before_execute_witness :
    lookupCache (loadPreState 1 "/w.js" (newModule emptyState "w" none).2) "/w.js"
      = some (.modv 1) :=
  (c2_cache_before_execute.1 envCircular 0 1 "/w.js" (.jsSrc []) (newModule emptyState "w" none).2
    _ rfl rfl).1

end ClaimC2

section ClaimC7

open Kernel JsStr Scenarios

/-- C7, counterexample: the claim asserts the `loading → loaded` transition
    happens even when the body throws, but when `/t.js`'s body throws the
    record stays in the cache with its `loaded` flag still `false`. -/
theorem c7_loaded_flag_counterexample :
    c7Run.1 = .error (.thrown (.str "boom")) ∧
    lookupCache c7Run.2 "/t.js" = some (.modv 3) ∧
    (getMod c7Run.2 3).map (fun r => r.loaded) = some false ∧
    (getMod c7Run.2 3).map (fun r => r.loaded) ≠ some true := by
  refine ⟨rfl, rfl, rfl, by decide⟩

/-- C7, amended: a module whose body throws during its load is not evicted
    from the global module cache, but its `loaded` flag remains `false`
    (the `loading → loaded` transition happens only when the body finishes
    successfully, as the successful `./x` load shows). -/
theorem c7_no_evict_amended :
    c7Run.1 = .error (.thrown (.str "boom")) ∧
    lookupCache c7Run.2 "/t.js" = some (.modv 3) ∧
    (getMod c7Run.2 3).map (fun r => r.loaded) = some false ∧
    (getMod (requireF envRelX 30 1 "./x" baseState).2 3).map (fun r => r.loaded) = some true := by
  refine ⟨rfl, rfl, rfl, rfl⟩

end ClaimC7

section ClaimC5

open Kernel JsStr Scenarios

/-- C5, counterexample: the specifier `..x` starts with neither `./` nor
    `../`, yet `require` resolves it against the requesting module's
    directory `/dir` and loads `/dir/..x.js` (the claim predicts it is
    never resolved against `D`). -/
theorem c5_dotdot_counterexample :
    jsSubstring "..x" 0 2 = ".." ∧
    strStartsWith "..x" "./" = false ∧
    strStartsWith "..x" "../" = false ∧
    (requireF envDotDotX 30 1 "..x" dirState).1 = .ok (.obj 2) ∧
    lookupCache (requireF envDotDotX 30 1 "..x" dirState).2 "/dir/..x.js" = some (.modv 3) ∧
    objField (requireF envDotDotX 30 1 "..x" dirState).2 2 "here" = some (.num 1) := by
  refine ⟨rfl, rfl, rfl, rfl, rfl, rfl⟩

/-- C5, amended: `require` takes the relative-resolution branch (the
    requesting module's directory joined with the specifier, normalized,
    then load-as-file-or-directory, with `ModuleNotFound` on a miss)
    exactly when the specifier's first two characters are `./` or `..`
    (which also admits `..`, `..x`, ...); when they are neither that nor
    a leading `/`, the bare-specifier pipeline runs instead, which never
    consults the requesting module's directory. -/
theorem c5_relative_branch_amended :
    (∀ (env : KEnv) (n self : Nat) (req : String) (s : LState) (rec : ModuleRec),
      getMod s self = some rec →
      (jsSubstring req 0 2 = "./" ∨ jsSubstring req 0 2 = "..") →
      requireF env (n + 1) self req s =
        andThen (step env n
            (.loadAsFileOrDirectory self (TiPath.normalize '/' (rec.pathDir ++ "/" ++ req))) s)
          (fun loaded s1 =>
            if loaded.truthy then (.ok (exportsOfV s1 loaded), s1)
            else (.error (.moduleNotFound req), s1))) ∧
    (∀ (env : KEnv) (n self : Nat) (req : String) (s : LState) (rec : ModuleRec),
      getMod s self = some rec →
      ¬(jsSubstring req 0 2 = "./" ∨ jsSubstring req 0 2 = "..") →
      jsSubstring req 0 1 ≠ "/" →
      requireF env (n + 1) self req s = requireBare env n self req s) := by
  constructor
  · intro env n self req s rec h hc
    simp only [requireF, step, h, if_pos hc]
  · intro env n self req s rec h h1 h2
    simp only [requireF, step, h, if_neg h1, if_neg h2, requireBare]

/-- C5, witness: the relative branch at the concrete specifier `./nope`
    (which misses and yields `ModuleNotFound`), and the bare pipeline at
    `plain`. -/
theorem c5_relative_branch_amended_witness :
    requireF envDotDotX 21 1 "./nope" dirState =
      andThen (step envDotDotX 20
          (.loadAsFileOrDirectory 1 (TiPath.normalize '/' ("/dir" ++ "/" ++ "./nope"))) dirState)
        (fun loaded s1 =>
          if loaded.truthy then (.ok (exportsOfV s1 loaded), s1)
          else (.error (.moduleNotFound "./nope"), s1)) ∧
    requireF envDotDotX 21 1 "plain" dirState = requireBare envDotDotX 20 1 "plain" dirState := by
  constructor
  · exact c5_relative_branch_amended.1 envDotDotX 20 1 "./nope" dirState _ rfl (by decide)
  · exact c5_relative_branch_amended.2 envDotDotX 20 1 "plain" dirState _ rfl (by decide) (by decide)

end ClaimC5

section ClaimC6

open Kernel JsStr Scenarios

/-- C6, counterexample: the asset `/json` ends in `json` (so the claim
    says it is parsed as JSON), but the source's extra `length > 5` guard
    sends it to the JavaScript-text loader: its body executes and sets
    `viaJs`. -/
theorem c6_json_probe_counterexample :
    strEndsWith "/json" "json" = true ∧
    loadAsFileProbeClaimed (fun f => filenameExists envSlashJson f) "/json" =
      some (.json, "/json") ∧
    loadAsFileProbeAmended (fun f => filenameExists envSlashJson f) "/json" =
      some (.text, "/json") ∧
    (requireF envSlashJson 30 1 "/json" baseState).1 = .ok (.obj 2) ∧
    objField (requireF envSlashJson 30 1 "/json" baseState).2 2 "viaJs" = some (.num 1) := by
  refine ⟨rfl, rfl, rfl, rfl, rfl⟩

/-- C6, amended: `loadAsFile` probes the exact id, then `id + ".js"`, then
    `id + ".json"`, stopping at the first existing candidate and probing
    nothing else; the exact id goes to the JSON loader only when it is
    longer than five characters *and* its last four characters are `json`
    (not merely when it ends in `json`). -/
theorem c6_load_as_file_probe_amended :
    ∀ (env : KEnv) (n self : Nat) (id : String) (s : LState),
      loadAsFileF env (n + 1) self id s =
        match loadAsFileProbeAmended (filenameExists env) id with
        | some (.json, f) => step env n (.loadJavascriptObject self f) s
        | some (.text, f) => step env n (.loadJavascriptText self f) s
        | none => (.ok .vnull, s) := by
  intro env n self id s
  simp only [loadAsFileF, step, loadAsFileProbeAmended]
  split_ifs <;> rfl

end ClaimC6

section ClaimC3

open Kernel JsStr LiveView Scenarios

/-- C3, counterexample: requiring `/index/a` with only `/a` cached — none
    of the claim's three keys (the exact id, the id with a *trailing*
    `/index` stripped, the id with `/index` appended) is in the cache, yet
    the LiveView resolver returns a cache hit, because its second key
    removes the *first* occurrence of `/index` anywhere in the id. -/
theorem c3_replace_first_counterexample :
    lvRequire [("/a", 7)] [] (fun _ => false) "/index/a" = .cachedHit 7 ∧
    getCached [("/a", 7)] "/index/a" = none ∧
    getCached [("/a", 7)] (trailingIndexStripped "/index/a") = none ∧
    getCached [("/a", 7)] ("/index/a" ++ "/index") = none := by
  refine ⟨rfl, rfl, rfl, rfl⟩

/-- C3, amended: the triple cache probe lives in the LiveView loader, and
    its second key is the id with the *first* occurrence of `/index`
    removed (which coincides with stripping a trailing `/index` only when
    `/index` occurs solely at the end); the kernel loader's
    `loadJavascriptText` instead consults the cache at exactly the resolved
    filename — a truthy hit is returned as-is and a missing key goes
    straight to a fresh load. -/
theorem c3_cache_keys_amended :
    (∀ (cache : List (String × Nat)) (cl : List String) (ex : String → Bool)
        (id : String) (a : Nat),
      lvRequire cache cl ex id = .cachedHit a ↔
        lvThreeKeyProbe cache (lvFullPath cl id) = some a) ∧
    (∀ (env : KEnv) (n self : Nat) (fn : String) (s : LState) (c : Value),
      lookupCache s fn = some c → c.truthy = true →
      loadJavascriptTextF env (n + 1) self fn s = (.ok c, s)) ∧
    (∀ (env : KEnv) (n self : Nat) (fn : String) (s : LState),
      lookupCache s fn = none →
      loadJavascriptTextF env (n + 1) self fn s = freshTextLoad env n self fn s) := by
  refine ⟨?_, ?_, ?_⟩
  · intro cache cl ex id a
    unfold lvRequire lvThreeKeyProbe lvFullPath
    cases h : ((getCached cache (if jsIndexOfStr id "./" = some 0 ∨ jsIndexOfStr id "../" = some 0 then
        toAbsolute ((cl.getLast?).getD "") id else id)).orElse fun _ =>
        (getCached cache (replaceFirst (if jsIndexOfStr id "./" = some 0 ∨ jsIndexOfStr id "../" = some 0 then
        toAbsolute ((cl.getLast?).getD "") id else id) "/index" "")).orElse fun _ =>
        getCached cache ((if jsIndexOfStr id "./" = some 0 ∨ jsIndexOfStr id "../" = some 0 then
        toAbsolute ((cl.getLast?).getD "") id else id) ++ "/index")) with
    | none => simp [h]
    | some b => simp [h]
  · intro env n self fn s c h ht
    simp only [loadJavascriptTextF, step, h, ht, if_true]
  · intro env n self fn s h
    simp only [loadJavascriptTextF, step, h, freshTextLoad]

/-- C3, witness: the kernel cache discipline at concrete states. -/
theorem c3_cache_keys_amended_witness :
    ((lvRequire [("/a", 7)] [] (fun _ => false) "/a" = .cachedHit 7) ↔
      (lvThreeKeyProbe [("/a", 7)] (lvFullPath [] "/a") = some 7)) ∧
    loadJavascriptTextF envRelX 3 1 "/q.js" (putCache baseState "/q.js" (.modv 1))
      = (.ok (.modv 1), putCache baseState "/q.js" (.modv 1)) ∧
    loadJavascriptTextF envRelX 3 1 "/x.js" baseState = freshTextLoad envRelX 2 1 "/x.js" baseState := by
  refine ⟨?_, ?_, ?_⟩
  · exact c3_cache_keys_amended.1 [("/a", 7)] [] (fun _ => false) "/a" 7
  · exact c3_cache_keys_amended.2.1 envRelX 2 1 "/q.js" (putCache baseState "/q.js" (.modv 1))
      (.modv 1) rfl rfl
  · exact c3_cache_keys_amended.2.2 envRelX 2 1 "/x.js" baseState rfl

end ClaimC3

section ClaimC4Helpers

open JsStr TiPath

theorem mkAbsL_nil : mkAbsL [] = [] := rfl

theorem mkAbsL_cons (s : String) (t : List String) :
    mkAbsL (s :: t) = '/' :: s.data ++ mkAbsL t := by
  simp [mkAbsL]

theorem mkAbsL_append (u v : List String) : mkAbsL (u ++ v) = mkAbsL u ++ mkAbsL v := by
  simp [mkAbsL]

theorem joinL_append (sep : Char) :
    ∀ (u v : List (List Char)), u ≠ [] → v ≠ [] →
      joinL sep (u ++ v) = joinL sep u ++ sep :: joinL sep v := by
  intro u
  induction u with
  | nil => intro v h; exact absurd rfl h
  | cons x xs ih =>
    intro v _ hv
    cases xs with
    | nil =>
      cases v with
      | nil => exact absurd rfl hv
      | cons y ys => simp [joinL]
    | cons x2 xs2 =>
      have h2 := ih v (by simp) hv
      have e2 : (x2 :: xs2) ++ v = x2 :: (xs2 ++ v) := rfl
      rw [e2] at h2
      show x ++ sep :: joinL sep (x2 :: (xs2 ++ v)) =
        (x ++ sep :: joinL sep (x2 :: xs2)) ++ sep :: joinL sep v
      rw [h2]
      simp

theorem mkAbsL_join : ∀ segs : List String, segs ≠ [] →
    mkAbsL segs = '/' :: joinL '/' (segs.map String.data) := by
  intro segs
  induction segs with
  | nil => intro h; exact absurd rfl h
  | cons s t ih =>
    intro _
    cases t with
    | nil => simp [mkAbsL, joinL]
    | cons s2 t2 =>
      rw [mkAbsL_cons, ih (by simp)]
      simp only [List.map_cons]
      have : joinL '/' (s.data :: s2.data :: t2.map String.data) =
          s.data ++ '/' :: joinL '/' (s2.data :: t2.map String.data) := rfl
      rw [this]
      simp

theorem splitCharL_ne_nil (sep : Char) : ∀ w, splitCharL sep w ≠ [] := by
  intro w
  induction w with
  | nil => simp [splitCharL]
  | cons a as ih =>
    unfold splitCharL
    by_cases h : a = sep
    · simp [h]
    · rw [if_neg h]
      cases hs : splitCharL sep as with
      | nil => simp
      | cons x t => simp

theorem splitCharL_cons_sep (sep : Char) (w : List Char) :
    splitCharL sep (sep :: w) = [] :: splitCharL sep w := by
  simp [splitCharL]

theorem splitCharL_append_nosep (sep : Char) :
    ∀ (e : List Char), sep ∉ e → ∀ v h t, splitCharL sep v = h :: t →
      splitCharL sep (e ++ v) = (e ++ h) :: t := by
  intro e
  induction e with
  | nil => intro _ v h t hv; simpa using hv
  | cons c cs ih =>
    intro hmem v h t hv
    have hcs : sep ∉ cs := fun hc => hmem (List.mem_cons_of_mem _ hc)
    have hcne : c ≠ sep := fun hc => hmem (hc ▸ List.mem_cons_self _ _)
    have hrec := ih hcs v h t hv
    simp only [List.cons_append]
    unfold splitCharL
    rw [if_neg hcne, hrec]

theorem splitCharL_join (sep : Char) :
    ∀ SEGS : List (List Char), SEGS ≠ [] → (∀ e ∈ SEGS, sep ∉ e) →
      splitCharL sep (joinL sep SEGS) = SEGS := by
  intro SEGS
  induction SEGS with
  | nil => intro h; exact absurd rfl h
  | cons e rest ih =>
    intro _ hmem
    cases rest with
    | nil =>
      have he : sep ∉ e := hmem e (by simp)
      have := splitCharL_append_nosep sep e he [] [] [] rfl
      simpa using this
    | cons e2 rest2 =>
      have he : sep ∉ e := hmem e (by simp)
      have hrest := ih (by simp) (fun x hx => hmem x (List.mem_cons_of_mem _ hx))
      have hj : joinL sep (e :: e2 :: rest2) = e ++ sep :: joinL sep (e2 :: rest2) := rfl
      rw [hj]
      rw [splitCharL_append_nosep sep e he (sep :: joinL sep (e2 :: rest2))
        [] (splitCharL sep (joinL sep (e2 :: rest2)))
        (by rw [splitCharL_cons_sep])]
      · rw [hrest]
        simp

theorem normSegsAux_skip (acc : List String) (rest : List String) :
    normSegsAux acc ("" :: rest) = normSegsAux acc rest := by
  simp [normSegsAux]

theorem normSegsAux_pop (acc : List String) (rest : List String) :
    normSegsAux acc (".." :: rest) = normSegsAux acc.dropLast rest := by
  simp [normSegsAux]

theorem normSegsAux_push (acc : List String) (s : String) (rest : List String)
    (h : wfSeg s) : normSegsAux acc (s :: rest) = normSegsAux (acc ++ [s]) rest := by
  obtain ⟨h1, h2, h3, _⟩ := h
  show (if s = "" ∨ s = "." then normSegsAux acc rest
        else if s = ".." then normSegsAux acc.dropLast rest
        else normSegsAux (acc ++ [s]) rest) = normSegsAux (acc ++ [s]) rest
  rw [if_neg (by simp [h1, h2]), if_neg h3]

theorem normSegsAux_run :
    ∀ (l acc : List String), (∀ s ∈ l, wfSeg s) →
      normSegsAux acc l = acc ++ l := by
  intro l
  induction l with
  | nil => intro acc _; simp [normSegsAux]
  | cons s rest ih =>
    intro acc h
    rw [normSegsAux_push acc s rest (h s (by simp))]
    rw [ih (acc ++ [s]) (fun x hx => h x (List.mem_cons_of_mem _ hx))]
    simp

theorem normSegsAux_wf_then :
    ∀ (l acc rest : List String), (∀ s ∈ l, wfSeg s) →
      normSegsAux acc (l ++ rest) = normSegsAux (acc ++ l) rest := by
  intro l
  induction l with
  | nil => intro acc rest _; simp
  | cons s t ih =>
    intro acc rest h
    rw [List.cons_append, normSegsAux_push acc s (t ++ rest) (h s (by simp))]
    rw [ih (acc ++ [s]) rest (fun x hx => h x (List.mem_cons_of_mem _ hx))]
    simp

theorem normSegsAux_pops :
    ∀ (pre : List String) (acc : List String) (rest : List String),
      normSegsAux (acc ++ pre) (List.replicate pre.length ".." ++ rest) =
        normSegsAux acc rest := by
  intro pre
  induction pre using List.reverseRecOn with
  | nil => intro acc rest; simp
  | append_singleton t x ih =>
    intro acc rest
    have hlen : (t ++ [x]).length = t.length + 1 := by simp
    rw [hlen]
    have hrep : List.replicate (t.length + 1) ".." = ".." :: List.replicate t.length ".." := rfl
    rw [hrep, List.cons_append, normSegsAux_pop]
    have hdl : (acc ++ (t ++ [x])).dropLast = acc ++ t := by
      rw [← List.append_assoc]
      exact List.dropLast_concat
    rw [hdl]
    exact ih acc rest

theorem mk_data (s : String) : String.mk s.data = s := by
  cases s
  rfl

theorem map_mk_map_data (l : List String) : (l.map String.data).map String.mk = l := by
  rw [List.map_map]
  have : (String.mk ∘ String.data) = id := by
    funext s
    exact mk_data s
  rw [this, List.map_id]

theorem normalize_abs_parts (parts : List String)
    (hne : parts ≠ [])
    (hnosep : ∀ s ∈ parts, ('/' : Char) ∉ s.data)
    (hlast : parts.getLast? = some "") :
    TiPath.normalize '/' ⟨'/' :: joinL '/' (parts.map String.data)⟩ =
      "/" ++ joinStr '/' (normSegsAux [] parts) ++ "/" := by
  set P : String := ⟨'/' :: joinL '/' (parts.map String.data)⟩ with hP
  have hPne : P ≠ "" := by
    intro h
    have := congrArg String.data h
    simp [hP] at this
  have hlead : strStartsWith P (csStr '/') = true := by
    unfold strStartsWith
    apply List.isPrefixOf_iff_prefix.mpr
    exact ⟨joinL '/' (parts.map String.data), rfl⟩
  have htrail : strEndsWith P (csStr '/') = true := by
    unfold strEndsWith
    apply List.isSuffixOf_iff_suffix.mpr
    obtain ⟨init, hinit⟩ : ∃ init, parts = init ++ [""] := by
      refine ⟨parts.dropLast, ?_⟩
      have h1 := List.dropLast_append_getLast hne
      have h2 : parts.getLast hne = "" := by
        have := List.getLast?_eq_getLast parts hne
        rw [hlast] at this
        exact (Option.some_inj.mp this).symm
      rw [h2] at h1
      exact h1.symm
    cases hi : init with
    | nil =>
      refine ⟨[], ?_⟩
      rw [hP, hinit, hi]
      rfl
    | cons i0 irest =>
      have hjl : joinL '/' ((init ++ [""]).map String.data) =
          joinL '/' (init.map String.data) ++ '/' :: [] := by
        rw [List.map_append]
        rw [joinL_append '/' _ _ (by simp [hi]) (by simp)]
        rfl
      refine ⟨'/' :: joinL '/' (init.map String.data), ?_⟩
      rw [hP, hinit]
      show ('/' :: joinL '/' (init.map String.data)) ++ (csStr '/').data =
        '/' :: joinL '/' ((init ++ [""]).map String.data)
      rw [hjl]
      simp [csStr]
  have hsplit : jsSplitChar '/' P = "" :: parts := by
    unfold jsSplitChar
    rw [hP]
    show (splitCharL '/' ('/' :: joinL '/' (parts.map String.data))).map String.mk = "" :: parts
    rw [splitCharL_cons_sep]
    rw [splitCharL_join '/' (parts.map String.data) (by simp [hne])
      (by intro e he; obtain ⟨s, hs, rfl⟩ := List.mem_map.mp he; exact hnosep s hs)]
    rw [List.map_cons, map_mk_map_data]
  unfold TiPath.normalize
  rw [if_neg (slen_ne_zero hPne)]
  simp only [show (('/' : Char) = '\\') ↔ False by simp, if_false, false_and, and_false,
    hlead, hsplit, if_true, normSegsAux_skip, htrail]
  rfl

theorem mkAbs_data (segs : List String) (h : segs ≠ []) : (mkAbs segs).data = mkAbsL segs := by
  unfold mkAbs
  rw [if_neg h]

theorem mkAbsL_len_ge : ∀ segs : List String, segs.length ≤ (mkAbsL segs).length := by
  intro segs
  induction segs with
  | nil => simp [mkAbsL]
  | cons s t ih =>
    rw [mkAbsL_cons]
    simp only [List.length_cons, List.cons_append, List.length_append]
    omega

theorem lastIdxL_not_mem (c : Char) : ∀ l : List Char, c ∉ l → lastIdxL c l = none := by
  intro l
  induction l with
  | nil => intro _; rfl
  | cons a as ih =>
    intro h
    unfold lastIdxL
    rw [ih (fun hm => h (List.mem_cons_of_mem _ hm))]
    rw [if_neg (show ¬(a = c) from fun ha => h (ha ▸ List.mem_cons_self _ _))]

theorem lastIdxL_append (c : Char) :
    ∀ u v : List Char, lastIdxL c (u ++ v) =
      match lastIdxL c v with
      | some k => some (u.length + k)
      | none => lastIdxL c u := by
  intro u v
  induction u with
  | nil =>
    cases hv : lastIdxL c v <;> simp [hv] <;> rfl
  | cons a as ih =>
    have e1 : lastIdxL c (a :: as ++ v) =
        (match lastIdxL c (as ++ v) with
         | some k => some (k + 1)
         | none => if a = c then some 0 else none) := rfl
    have e2 : lastIdxL c (a :: as) =
        (match lastIdxL c as with
         | some k => some (k + 1)
         | none => if a = c then some 0 else none) := rfl
    rw [e1, ih]
    cases hv : lastIdxL c v with
    | some k =>
      show some (as.length + k + 1) = some ((a :: as).length + k)
      simp only [List.length_cons]
      exact congrArg some (by omega)
    | none => exact e2.symm

theorem lastIdxL_sep_append (u v : List Char) (hv : ('/' : Char) ∉ v) :
    lastIdxL '/' (u ++ '/' :: v) = some u.length := by
  rw [lastIdxL_append]
  have h1 : lastIdxL '/' ('/' :: v) = some 0 := by
    unfold lastIdxL
    rw [lastIdxL_not_mem '/' v hv]
    simp
  rw [h1]
  simp

theorem data_ne_nil {s : String} (h : s ≠ "") : s.data ≠ [] := by
  intro hd
  apply h
  cases s
  simp at hd
  rw [hd]

theorem endsWith_sep_getLast {w : String} (h : strEndsWith w (csStr '/') = true) :
    w.data.getLast? = some '/' := by
  unfold strEndsWith at h
  obtain ⟨t, ht⟩ := List.isSuffixOf_iff_suffix.mp h
  rw [← ht]
  have : (csStr '/').data = ['/'] := rfl
  rw [this, List.getLast?_concat]

theorem dirname_mkAbs (l : List String) (z : String)
    (hl : ∀ s ∈ l, wfSeg s) (hz : wfSeg z) :
    TiPath.dirname '/' (mkAbs (l ++ [z])) = mkAbs l := by
  have hne : l ++ [z] ≠ [] := by simp
  have hdata : (mkAbs (l ++ [z])).data = mkAbsL l ++ '/' :: z.data := by
    rw [mkAbs_data _ hne, mkAbsL_append]
    have : mkAbsL [z] = '/' :: z.data := by simp [mkAbsL]
    rw [this]
  have hzne : z.data ≠ [] := data_ne_nil hz.1
  have hzsep : ('/' : Char) ∉ z.data := hz.2.2.2
  have hslen : slen (mkAbs (l ++ [z])) = (mkAbsL l).length + 1 + z.data.length := by
    unfold slen
    rw [hdata]
    simp only [List.length_append, List.length_cons]
    omega
  have hslen2 : 2 ≤ slen (mkAbs (l ++ [z])) := by
    rw [hslen]
    have := List.length_pos.mpr hzne
    omega
  have htr : strEndsWith (mkAbs (l ++ [z])) (csStr '/') = false := by
    by_contra hc
    have ht : strEndsWith (mkAbs (l ++ [z])) (csStr '/') = true := by
      revert hc
      cases strEndsWith (mkAbs (l ++ [z])) (csStr '/') <;> simp
    have hlast := endsWith_sep_getLast ht
    rw [hdata, List.getLast?_append] at hlast
    have h2 : ('/' :: z.data).getLast? = z.data.getLast? := by
      have : ('/' :: z.data) = ['/'] ++ z.data := rfl
      rw [this, List.getLast?_append]
      cases hzl : z.data.getLast? with
      | none => exact absurd (List.getLast?_eq_none_iff.mp hzl) hzne
      | some c => rfl
    rw [h2] at hlast
    cases hzl : z.data.getLast? with
    | none => exact absurd (List.getLast?_eq_none_iff.mp hzl) hzne
    | some c =>
      rw [hzl] at hlast
      simp only [Option.or_some] at hlast
      have hcm : c ∈ z.data := List.mem_of_mem_getLast? hzl
      rw [Option.some_inj.mp hlast] at hcm
      exact hzsep hcm
  have hfound : jsLastIndexOfFrom (mkAbs (l ++ [z])) '/'
      ((slen (mkAbs (l ++ [z])) : Int) - 1) = some (mkAbsL l).length := by
    unfold jsLastIndexOfFrom
    have hmax : (max ((slen (mkAbs (l ++ [z])) : Int) - 1) 0).toNat + 1 =
        slen (mkAbs (l ++ [z])) := by omega
    rw [hmax]
    have htake : (mkAbs (l ++ [z])).data.take (slen (mkAbs (l ++ [z]))) =
        (mkAbs (l ++ [z])).data := by
      unfold slen
      exact List.take_length _
    rw [htake, hdata]
    exact lastIdxL_sep_append _ _ hzsep
  unfold TiPath.dirname
  rw [if_neg (by omega : ¬slen (mkAbs (l ++ [z])) = 0)]
  simp only [htr, Bool.false_eq_true, if_false, hfound]
  cases hl0 : l with
  | nil =>
    rw [if_pos (show (mkAbsL ([] : List String)).length = 0 from rfl)]
    rfl
  | cons s0 t0 =>
    have hlen2 : 2 ≤ (mkAbsL l).length := by
      rw [hl0, mkAbsL_cons]
      have h0 : s0.data ≠ [] := data_ne_nil (hl s0 (by rw [hl0]; simp)).1
      have := List.length_pos.mpr h0
      simp only [List.cons_append, List.length_cons, List.length_append]
      omega
    rw [← hl0]
    rw [if_neg (by omega : ¬(mkAbsL l).length = 0)]
    rw [if_neg (by
      intro hc
      have := hc.1
      omega)]
    unfold jsSliceNN
    rw [hdata]
    have : ((mkAbsL l ++ '/' :: z.data).take (mkAbsL l).length).drop 0 = mkAbsL l := by
      rw [List.take_left]
      rfl
    rw [this]
    unfold mkAbs
    rw [if_neg (show ¬l = [] from by rw [hl0]; simp)]

theorem mkAbsL_ne_nil (x : String) (t : List String) : mkAbsL (x :: t) ≠ [] := by
  rw [mkAbsL_cons]
  simp

theorem startsWith_mkAbs_false (c : List String) (x : String) (t' b' : List String)
    (hc : c ≠ []) (hwfx : wfSeg x)
    (hH : ∀ y b'', b' = y :: b'' → ¬(x.data <+: y.data)) :
    strStartsWith (mkAbs (c ++ b')) (mkAbs (c ++ x :: t')) = false := by
  by_contra hcon
  have htrue : strStartsWith (mkAbs (c ++ b')) (mkAbs (c ++ x :: t')) = true := by
    revert hcon
    cases strStartsWith (mkAbs (c ++ b')) (mkAbs (c ++ x :: t')) <;> simp
  unfold strStartsWith at htrue
  have hpre0 : (mkAbs (c ++ x :: t')).data <+: (mkAbs (c ++ b')).data :=
    List.isPrefixOf_iff_prefix.mp htrue
  rw [mkAbs_data _ (by simp [hc]), mkAbs_data _ (by simp [hc])] at hpre0
  rw [mkAbsL_append, mkAbsL_append] at hpre0
  have hpre1 : mkAbsL (x :: t') <+: mkAbsL b' :=
    (List.prefix_append_right_inj (mkAbsL c)).mp hpre0
  cases hb : b' with
  | nil =>
    rw [hb] at hpre1
    have : mkAbsL (x :: t') = [] := List.prefix_nil.mp (by simpa [mkAbsL_nil] using hpre1)
    exact mkAbsL_ne_nil x t' this
  | cons y b'' =>
    rw [hb] at hpre1
    rw [mkAbsL_cons, mkAbsL_cons] at hpre1
    have hpre2 : x.data ++ mkAbsL t' <+: y.data ++ mkAbsL b'' := by
      simpa using hpre1
    have hnx : ¬(x.data <+: y.data) := hH y b'' hb
    have h1 : x.data <+: y.data ++ mkAbsL b'' :=
      (List.prefix_append x.data (mkAbsL t')).trans hpre2
    have h2 : y.data <+: y.data ++ mkAbsL b'' := List.prefix_append _ _
    rcases List.prefix_or_prefix_of_prefix h1 h2 with h | h
    · exact hnx h
    · obtain ⟨zz, hz⟩ := h
      cases hzz : zz with
      | nil =>
        apply hnx
        rw [hzz] at hz
        simp at hz
        rw [hz]
      | cons zc zrest =>
        have hzmem : zc ∈ x.data := by
          rw [← hz, hzz]
          exact List.mem_append_right _ (List.mem_cons_self _ _)
        have hzsep : zc ≠ '/' := fun hcz => hwfx.2.2.2 (hcz ▸ hzmem)
        rw [← hz, hzz] at hpre2
        have hpre3 : (zc :: zrest) ++ mkAbsL t' <+: mkAbsL b'' := by
          rw [List.append_assoc] at hpre2
          exact (List.prefix_append_right_inj y.data).mp hpre2
        cases hb2 : b'' with
        | nil =>
          rw [hb2] at hpre3
          have : (zc :: zrest) ++ mkAbsL t' = [] :=
            List.prefix_nil.mp (by simpa [mkAbsL_nil] using hpre3)
          simp at this
        | cons w rest =>
          rw [hb2, mkAbsL_cons] at hpre3
          have : zc = '/' := (List.cons_prefix_cons.mp (by simpa using hpre3)).1
          exact hzsep this

theorem startsWith_mkAbs_root (c b' : List String) (hc : c ≠ []) :
    strStartsWith (mkAbs (c ++ b')) (mkAbs c) = true := by
  unfold strStartsWith
  apply List.isPrefixOf_iff_prefix.mpr
  rw [mkAbs_data _ hc, mkAbs_data _ (by simp [hc]), mkAbsL_append]
  exact List.prefix_append _ _

theorem relGo_mkAbs (c a' b' : List String) (hc : c ≠ [])
    (hwfc : ∀ s ∈ c, wfSeg s) (hwfa : ∀ s ∈ a', wfSeg s)
    (hxy : ∀ x, a'.head? = some x → ∀ y, b'.head? = some y → ¬(x.data <+: y.data)) :
    ∀ r fuel count, r ≤ a'.length → r + 1 ≤ fuel →
      relGo '/' fuel (mkAbs (c ++ a'.take r)) (mkAbs (c ++ b')) count =
        some (count + r,
          jsSliceNN (mkAbs (c ++ b')) (slen (mkAbs c)) (slen (mkAbs (c ++ b')))) := by
  intro r
  induction r with
  | zero =>
    intro fuel count _ hfuel
    cases fuel with
    | zero => omega
    | succ f =>
      unfold relGo
      rw [List.take_zero, List.append_nil]
      rw [startsWith_mkAbs_root c b' hc]
      simp
  | succ j ih =>
    intro fuel count hr hfuel
    cases fuel with
    | zero => omega
    | succ f =>
      cases ha : a' with
      | nil =>
        rw [ha] at hr
        simp at hr
      | cons ah atl =>
        rw [ha] at hr hwfa
        simp only [List.length_cons] at hr
        unfold relGo
        have hform1 : (ah :: atl).take (j + 1) = ah :: atl.take j := List.take_succ_cons
        have hj2 : j < (ah :: atl).length := by
          simp only [List.length_cons]
          omega
        obtain ⟨el, helq⟩ : ∃ el, (ah :: atl)[j]? = some el :=
          ⟨_, List.getElem?_eq_getElem hj2⟩
        have hform2 : (ah :: atl).take (j + 1) = (ah :: atl).take j ++ [el] := by
          rw [List.take_succ, helq]
          rfl
        have helmem : el ∈ ah :: atl := by
          have := List.getElem?_eq_some_iff.mp helq
          obtain ⟨hlt, hget⟩ := this
          rw [← hget]
          exact List.getElem_mem hlt
        have hsw : strStartsWith (mkAbs (c ++ b')) (mkAbs (c ++ (ah :: atl).take (j + 1)))
            = false := by
          rw [hform1]
          refine startsWith_mkAbs_false c ah (atl.take j) b' hc (hwfa ah (by simp)) ?_
          intro y b'' hb
          apply hxy ah (by rw [ha]; rfl) y
          rw [hb]
          rfl
        rw [hsw]
        simp only [Bool.false_eq_true, if_false]
        rw [hform2, ← List.append_assoc]
        rw [dirname_mkAbs (c ++ (ah :: atl).take j) el
          (by
            intro s hs
            rcases List.mem_append.mp hs with hs | hs
            · exact hwfc s hs
            · exact hwfa s (List.mem_of_mem_take hs))
          (hwfa el helmem)]
        have hres := ih f (count + 1) (by rw [ha]; simp only [List.length_cons]; omega)
          (by omega)
        rw [ha] at hres
        rw [hres]
        have harith : count + 1 + j = count + (j + 1) := by omega
        rw [harith]

theorem mkAbs_eq_cons_join (out : List String) :
    mkAbs out = ⟨'/' :: joinL '/' (out.map String.data)⟩ := by
  cases out with
  | nil => rfl
  | cons x t =>
    unfold mkAbs
    rw [if_neg (by simp), mkAbsL_join (x :: t) (by simp)]

theorem joinL_concat_nil (X : List (List Char)) (hX : X ≠ []) :
    joinL '/' (X ++ [[]]) = joinL '/' X ++ ['/'] := by
  rw [joinL_append '/' X [[]] hX (by simp)]
  rfl

theorem flatten_dotslash (m : Nat) (X : List (List Char)) (hX : X ≠ []) :
    (List.replicate m ['.', '.', '/']).flatten ++ joinL '/' X =
      joinL '/' (List.replicate m ['.', '.'] ++ X) := by
  induction m with
  | zero => simp
  | succ k ih =>
    rw [List.replicate_succ, List.replicate_succ, List.flatten_cons]
    have hne : List.replicate k ['.', '.'] ++ X ≠ [] := by
      intro h
      exact hX (List.append_eq_nil.mp h).2
    have h1 : joinL '/' ((['.', '.'] :: List.replicate k ['.', '.']) ++ X) =
        ['.', '.'] ++ '/' :: joinL '/' (List.replicate k ['.', '.'] ++ X) := by
      rw [show (['.', '.'] :: List.replicate k ['.', '.']) ++ X =
        ['.', '.'] :: (List.replicate k ['.', '.'] ++ X) from rfl]
      cases hk : List.replicate k ['.', '.'] ++ X with
      | nil => exact absurd hk hne
      | cons y ys => rfl
    rw [h1, ← ih]
    simp

theorem slice_remainder (c b' : List String) (hc : c ≠ []) :
    jsSliceNN (mkAbs (c ++ b')) (slen (mkAbs c)) (slen (mkAbs (c ++ b'))) =
      (⟨mkAbsL b'⟩ : String) := by
  have hcb : c ++ b' ≠ [] := by
    intro h
    exact hc (List.append_eq_nil.mp h).1
  have h1 : (mkAbs (c ++ b')).data = mkAbsL c ++ mkAbsL b' := by
    rw [mkAbs_data _ hcb, mkAbsL_append]
  have h2 : slen (mkAbs c) = (mkAbsL c).length := by
    unfold slen
    rw [mkAbs_data c hc]
  have h3 : slen (mkAbs (c ++ b')) = (mkAbsL c ++ mkAbsL b').length := by
    unfold slen
    rw [h1]
  unfold jsSliceNN
  rw [h1, h2, h3, List.take_length, List.drop_left]

theorem mkAbs_inj (u v : List String) (hu : u ≠ []) (hv : v ≠ [])
    (hwu : ∀ s ∈ u, wfSeg s) (hwv : ∀ s ∈ v, wfSeg s)
    (h : mkAbs u = mkAbs v) : u = v := by
  have hd := congrArg String.data h
  rw [mkAbs_data u hu, mkAbs_data v hv, mkAbsL_join u hu, mkAbsL_join v hv] at hd
  simp only [List.cons.injEq, true_and] at hd
  have hsu := splitCharL_join '/' (u.map String.data) (by simp [hu])
    (by
      intro e he
      obtain ⟨s, hs, rfl⟩ := List.mem_map.mp he
      exact (hwu s hs).2.2.2)
  have hsv := splitCharL_join '/' (v.map String.data) (by simp [hv])
    (by
      intro e he
      obtain ⟨s, hs, rfl⟩ := List.mem_map.mp he
      exact (hwv s hs).2.2.2)
  have hmap : u.map String.data = v.map String.data := by
    rw [← hsu, ← hsv, hd]
  have := congrArg (List.map String.mk) hmap
  rwa [map_mk_map_data, map_mk_map_data] at this

theorem mkAbs_head (segs : List String) : (mkAbs segs).data.head? = some '/' := by
  cases segs with
  | nil => rfl
  | cons x t =>
    rw [mkAbs_data _ (by simp), mkAbsL_cons]
    rfl

theorem mkAbs_ne_empty (segs : List String) : mkAbs segs ≠ "" := by
  intro h
  have h2 : (mkAbs segs).data.head? = ("" : String).data.head? := by rw [h]
  rw [mkAbs_head] at h2
  exact Option.noConfusion (h2.trans rfl)

theorem isAbsolute_head_slash (s : String) (hne : s ≠ "")
    (hh : s.data.head? = some '/') : TiPath.isAbsolute true s = true := by
  unfold TiPath.isAbsolute
  rw [if_neg (slen_ne_zero hne), hh]
  simp

theorem isAbsolute_head_ne (s : String) (ch : Char) (hh : s.data.head? = some ch)
    (hch : ch ≠ '/') : TiPath.isAbsolute true s = false := by
  unfold TiPath.isAbsolute
  by_cases h0 : slen s = 0
  · rw [if_pos h0]
  · rw [if_neg h0, hh]
    simp [hch]

theorem resolveGo_cons_abs (rest : List String) (acc A : String)
    (hA : A ≠ "") (hh : A.data.head? = some '/') :
    resolveGo '/' (A :: rest) acc = (A ++ csStr '/' ++ acc, true) := by
  have habs := isAbsolute_head_slash A hA hh
  simp only [resolveGo]
  rw [if_neg hA]
  simp [habs]

theorem resolveGo_cons_rel (rest : List String) (acc A : String)
    (hA : A ≠ "") (ch : Char) (hh : A.data.head? = some ch) (hch : ch ≠ '/') :
    resolveGo '/' (A :: rest) acc = resolveGo '/' rest (A ++ csStr '/' ++ acc) := by
  have habs := isAbsolute_head_ne A ch hh hch
  simp only [resolveGo]
  rw [if_neg hA]
  simp [habs]

theorem resolveGo_cons_empty (rest : List String) (acc : String) :
    resolveGo '/' ("" :: rest) acc = resolveGo '/' rest acc := by
  simp only [resolveGo]
  simp

theorem resolve_via (ps : List String) (parts out : List String)
    (hne : parts ≠ []) (hnosep : ∀ s ∈ parts, ('/' : Char) ∉ s.data)
    (hlast : parts.getLast? = some "")
    (hout : normSegsAux [] parts = out)
    (hres : (resolveGo '/' ps.reverse "").2 = true)
    (hdata : (resolveGo '/' ps.reverse "").1.data =
      '/' :: joinL '/' (parts.map String.data)) :
    TiPath.resolve '/' ps = mkAbs out := by
  have hv : (resolveGo '/' ps.reverse "").1 =
      ⟨'/' :: joinL '/' (parts.map String.data)⟩ := by
    have h2 := congrArg String.mk hdata
    rwa [mk_data] at h2
  have hnorm := normalize_abs_parts parts hne hnosep hlast
  rw [hout] at hnorm
  have hJdata : ("/" ++ joinStr '/' out ++ "/").data =
      ('/' :: joinL '/' (out.map String.data)) ++ ['/'] := by
    rw [data_append, data_append]
    rfl
  have hEnd : strEndsWith ("/" ++ joinStr '/' out ++ "/") (csStr '/') = true := by
    unfold strEndsWith
    apply List.isSuffixOf_iff_suffix.mpr
    refine ⟨'/' :: joinL '/' (out.map String.data), ?_⟩
    rw [hJdata]
    rfl
  unfold TiPath.resolve
  simp only [hres, if_true, hv, hnorm, hEnd]
  rw [if_neg (by simp)]
  unfold jsSliceNN slen
  rw [hJdata, mkAbs_eq_cons_join]
  have hlen : (('/' :: joinL '/' (out.map String.data)) ++ ['/']).length - 1 =
      ('/' :: joinL '/' (out.map String.data)).length := by
    simp
  rw [hlen, List.take_left, List.drop_zero]

theorem resolveGo_single_parts (segs : List String) :
    (resolveGo '/' [mkAbs segs] "").2 = true ∧
    (resolveGo '/' [mkAbs segs] "").1.data =
      '/' :: joinL '/' ((segs ++ (if segs = [] then ["", ""] else [""])).map String.data) := by
  rw [resolveGo_cons_abs [] "" (mkAbs segs) (mkAbs_ne_empty segs) (mkAbs_head segs)]
  refine ⟨rfl, ?_⟩
  rw [data_append, data_append, mkAbs_eq_cons_join]
  cases hs : segs with
  | nil => rfl
  | cons x t =>
    rw [if_neg (by simp)]
    show ('/' :: joinL '/' ((x :: t).map String.data)) ++ ['/'] ++ [] =
      '/' :: joinL '/' (((x :: t) ++ [""]).map String.data)
    rw [List.map_append]
    rw [show List.map String.data [("" : String)] = [[]] from rfl]
    rw [joinL_concat_nil ((x :: t).map String.data) (by simp)]
    simp

theorem resolve_one (segs : List String) (hwf : ∀ s ∈ segs, wfSeg s) :
    TiPath.resolve '/' [mkAbs segs] = mkAbs segs := by
  obtain ⟨hres, hdata⟩ := resolveGo_single_parts segs
  cases hs : segs with
  | nil => rfl
  | cons x t =>
    rw [hs] at hres hdata hwf
    rw [if_neg (by simp)] at hdata
    refine resolve_via [mkAbs (x :: t)] ((x :: t) ++ [""]) (x :: t) (by simp) ?_ ?_ ?_ hres hdata
    · intro s hsm
      rcases List.mem_append.mp hsm with hm | hm
      · exact (hwf s hm).2.2.2
      · simp at hm
        rw [hm]
        simp
    · rw [List.getLast?_concat]
    · rw [normSegsAux_wf_then (x :: t) [] [""] hwf]
      rw [List.nil_append, normSegsAux_skip]
      rfl

theorem resolve_pair_empty (segs : List String) (hwf : ∀ s ∈ segs, wfSeg s) :
    TiPath.resolve '/' [mkAbs segs, ""] = mkAbs segs := by
  have h1 : resolveGo '/' ([mkAbs segs, ""]).reverse "" = resolveGo '/' [mkAbs segs] "" :=
    resolveGo_cons_empty [mkAbs segs] ""
  obtain ⟨hres, hdata⟩ := resolveGo_single_parts segs
  cases hs : segs with
  | nil => rfl
  | cons x t =>
    rw [hs] at hres hdata hwf h1
    rw [if_neg (by simp)] at hdata
    refine resolve_via [mkAbs (x :: t), ""] ((x :: t) ++ [""]) (x :: t) (by simp) ?_ ?_ ?_
      (by rw [h1]; exact hres) (by rw [h1]; exact hdata)
    · intro s hsm
      rcases List.mem_append.mp hsm with hm | hm
      · exact (hwf s hm).2.2.2
      · simp at hm
        rw [hm]
        simp
    · rw [List.getLast?_concat]
    · rw [normSegsAux_wf_then (x :: t) [] [""] hwf]
      rw [List.nil_append, normSegsAux_skip]
      rfl

theorem joinL_head (l : List Char) (ls : List (List Char)) (hl : l ≠ []) :
    (joinL '/' (l :: ls)).head? = l.head? := by
  cases ls with
  | nil => rfl
  | cons y ys =>
    show (l ++ '/' :: joinL '/' (y :: ys)).head? = l.head?
    cases l with
    | nil => exact absurd rfl hl
    | cons a b => rfl

theorem rel_data (a' b' : List String) :
    (repeatStr (".." ++ csStr '/') a'.length ++ joinStr '/' b').data =
      (List.replicate a'.length ['.', '.', '/']).flatten ++ joinL '/' (b'.map String.data) := by
  rw [data_append]
  rfl

theorem rel_head (a' b' : List String) (hwfb : ∀ s ∈ b', wfSeg s)
    (hor : a' ≠ [] ∨ b' ≠ []) :
    ∃ ch, (repeatStr (".." ++ csStr '/') a'.length ++ joinStr '/' b').data.head? = some ch ∧
      ch ≠ '/' := by
  rw [rel_data]
  cases ha : a' with
  | cons x t =>
    refine ⟨'.', ?_, by decide⟩
    rfl
  | nil =>
    cases hb : b' with
    | nil =>
      rw [ha, hb] at hor
      rcases hor with h | h <;> exact absurd rfl h
    | cons x t =>
      have hx : x.data ≠ [] := data_ne_nil (hwfb x (by rw [hb]; simp)).1
      refine ⟨x.data.head hx, ?_, ?_⟩
      · show (joinL '/' (x.data :: t.map String.data)).head? = some (x.data.head hx)
        rw [joinL_head x.data (t.map String.data) hx]
        exact List.head?_eq_head hx
      · intro hsl
        have hmem : '/' ∈ x.data := by
          rw [← hsl]
          exact List.head_mem hx
        exact (hwfb x (by rw [hb]; simp)).2.2.2 hmem

theorem resolveGo_pair_parts (c a' b' : List String) (hc : c ≠ [])
    (hwfb : ∀ s ∈ b', wfSeg s) (hor : a' ≠ [] ∨ b' ≠ []) :
    (resolveGo '/' [repeatStr (".." ++ csStr '/') a'.length ++ joinStr '/' b',
        mkAbs (c ++ a')] "").2 = true ∧
    (resolveGo '/' [repeatStr (".." ++ csStr '/') a'.length ++ joinStr '/' b',
        mkAbs (c ++ a')] "").1.data =
      '/' :: joinL '/' (((c ++ a') ++ List.replicate a'.length ".." ++ b' ++
        (if b' = [] then ["", ""] else [""])).map String.data) := by
  obtain ⟨ch, hch, hchne⟩ := rel_head a' b' hwfb hor
  have hrelne : (repeatStr (".." ++ csStr '/') a'.length ++ joinStr '/' b') ≠ "" := by
    intro h
    rw [h] at hch
    exact Option.noConfusion ((rfl : ("" : String).data.head? = none).symm.trans hch)
  rw [resolveGo_cons_rel [mkAbs (c ++ a')] "" _ hrelne ch hch hchne]
  rw [resolveGo_cons_abs [] _ (mkAbs (c ++ a')) (mkAbs_ne_empty _) (mkAbs_head _)]
  refine ⟨rfl, ?_⟩
  have hcane : c ++ a' ≠ [] := by
    intro h
    exact hc (List.append_eq_nil.mp h).1
  have hAdata : (mkAbs (c ++ a')).data = '/' :: joinL '/' ((c ++ a').map String.data) := by
    rw [mkAbs_data _ hcane, mkAbsL_join _ hcane]
  rw [List.map_append, List.map_append, List.map_append, List.map_replicate]
  rw [show String.data (".." : String) = ['.', '.'] from rfl]
  rw [data_append, data_append, data_append, data_append, hAdata, rel_data]
  have hCAne : (c ++ a').map String.data ≠ [] := by
    intro h
    exact hcane (by simpa using h)
  have hEMne : (if b' = [] then ["", ""] else [""] : List String).map String.data ≠ [] := by
    cases b' <;> simp
  have hREne : List.replicate a'.length ['.', '.'] ++
      (b'.map String.data ++ (if b' = [] then ["", ""] else [""]).map String.data) ≠ [] := by
    intro h
    exact hEMne (List.append_eq_nil.mp (List.append_eq_nil.mp h).2).2
  have hkey : (List.replicate a'.length ['.', '.', '/']).flatten ++
      (joinL '/' (b'.map String.data) ++ ['/']) =
      joinL '/' (List.replicate a'.length ['.', '.'] ++
        (b'.map String.data ++ (if b' = [] then ["", ""] else [""]).map String.data)) := by
    cases hb : b' with
    | nil =>
      rw [if_pos rfl]
      rw [show (["", ""] : List String).map String.data = [[], []] from rfl]
      simp only [List.map_nil, List.nil_append]
      rw [← flatten_dotslash a'.length [[], []] (by simp)]
      rfl
    | cons x t =>
      rw [if_neg (by simp)]
      rw [show ([""] : List String).map String.data = [[]] from rfl]
      rw [← flatten_dotslash a'.length ((x :: t).map String.data ++ [[]]) (by simp)]
      rw [joinL_concat_nil ((x :: t).map String.data) (by simp)]
  have hassoc : (((c ++ a').map String.data ++ List.replicate a'.length ['.', '.']) ++
      b'.map String.data) ++ (if b' = [] then ["", ""] else [""]).map String.data =
      (c ++ a').map String.data ++ (List.replicate a'.length ['.', '.'] ++
        (b'.map String.data ++ (if b' = [] then ["", ""] else [""]).map String.data)) := by
    simp [List.append_assoc]
  rw [hassoc]
  rw [joinL_append '/' ((c ++ a').map String.data) _ hCAne hREne]
  rw [← hkey]
  simp only [List.append_assoc, List.append_nil, List.cons_append, List.nil_append]
  rfl

theorem resolve_pair (c a' b' : List String) (hc : c ≠ [])
    (hwfc : ∀ s ∈ c, wfSeg s) (hwfa : ∀ s ∈ a', wfSeg s) (hwfb : ∀ s ∈ b', wfSeg s)
    (hor : a' ≠ [] ∨ b' ≠ []) :
    TiPath.resolve '/' [mkAbs (c ++ a'),
      repeatStr (".." ++ csStr '/') a'.length ++ joinStr '/' b'] = mkAbs (c ++ b') := by
  obtain ⟨hres, hdata⟩ := resolveGo_pair_parts c a' b' hc hwfb hor
  refine resolve_via [mkAbs (c ++ a'),
      repeatStr (".." ++ csStr '/') a'.length ++ joinStr '/' b']
    ((c ++ a') ++ List.replicate a'.length ".." ++ b' ++
      (if b' = [] then ["", ""] else [""])) (c ++ b')
    ?_ ?_ ?_ ?_ hres hdata
  · intro h
    have hE := (List.append_eq_nil.mp h).2
    by_cases hb : b' = [] <;> simp [hb] at hE
  · intro s hsm
    rcases List.mem_append.mp hsm with hsm | hsm
    · rcases List.mem_append.mp hsm with hsm | hsm
      · rcases List.mem_append.mp hsm with hsm | hsm
        · rcases List.mem_append.mp hsm with hsm | hsm
          · exact (hwfc s hsm).2.2.2
          · exact (hwfa s hsm).2.2.2
        · rw [List.eq_of_mem_replicate hsm]
          decide
      · exact (hwfb s hsm).2.2.2
    · by_cases hb : b' = []
      · rw [if_pos hb] at hsm
        have hs : s = "" := by
          rcases List.mem_cons.mp hsm with h | h
          · exact h
          · simpa using h
        rw [hs]
        decide
      · rw [if_neg hb] at hsm
        have hs : s = "" := by simpa using hsm
        rw [hs]
        decide
  · by_cases hb : b' = []
    · rw [if_pos hb, List.getLast?_append]
      rfl
    · rw [if_neg hb, List.getLast?_concat]
  · have ha1 : ((c ++ a') ++ List.replicate a'.length ".." ++ b' ++
        (if b' = [] then ["", ""] else [""])) =
        (c ++ a') ++ (List.replicate a'.length ".." ++ (b' ++
          (if b' = [] then ["", ""] else [""]))) := by
      simp [List.append_assoc]
    rw [ha1]
    rw [normSegsAux_wf_then (c ++ a') [] _ (by
      intro s hsm
      rcases List.mem_append.mp hsm with hsm | hsm
      · exact hwfc s hsm
      · exact hwfa s hsm)]
    rw [List.nil_append]
    rw [normSegsAux_pops a' c (b' ++ (if b' = [] then ["", ""] else [""]))]
    rw [normSegsAux_wf_then b' c _ hwfb]
    by_cases hb : b' = []
    · rw [if_pos hb, normSegsAux_skip, normSegsAux_skip]
      rfl
    · rw [if_neg hb, normSegsAux_skip]
      rfl

theorem relative_mkAbs (c a' b' : List String) (hc : c ≠ [])
    (hwfc : ∀ s ∈ c, wfSeg s) (hwfa : ∀ s ∈ a', wfSeg s) (hwfb : ∀ s ∈ b', wfSeg s)
    (hne : a' ≠ b')
    (hxy : ∀ x, a'.head? = some x → ∀ y, b'.head? = some y → ¬(x.data <+: y.data)) :
    TiPath.relative '/' (mkAbs (c ++ a')) (mkAbs (c ++ b')) =
      some (repeatStr (".." ++ csStr '/') a'.length ++ joinStr '/' b') := by
  have hcane : c ++ a' ≠ [] := fun h => hc (List.append_eq_nil.mp h).1
  have hcbne : c ++ b' ≠ [] := fun h => hc (List.append_eq_nil.mp h).1
  have hwfca : ∀ s ∈ c ++ a', wfSeg s := by
    intro s hs
    rcases List.mem_append.mp hs with h | h
    · exact hwfc s h
    · exact hwfa s h
  have hwfcb : ∀ s ∈ c ++ b', wfSeg s := by
    intro s hs
    rcases List.mem_append.mp hs with h | h
    · exact hwfc s h
    · exact hwfb s h
  have hAB : mkAbs (c ++ a') ≠ mkAbs (c ++ b') := by
    intro h
    exact hne (List.append_cancel_left (mkAbs_inj _ _ hcane hcbne hwfca hwfcb h))
  have hfuel : a'.length + 1 ≤ slen (mkAbs (c ++ a')) + 2 := by
    have h1 := mkAbsL_len_ge (c ++ a')
    have h2 : slen (mkAbs (c ++ a')) = (mkAbsL (c ++ a')).length := by
      unfold slen
      rw [mkAbs_data _ hcane]
    have h3 : (c ++ a').length = c.length + a'.length := List.length_append c a'
    omega
  have hloop := relGo_mkAbs c a' b' hc hwfc hwfa hxy a'.length
    (slen (mkAbs (c ++ a')) + 2) 0 (le_refl _) hfuel
  rw [List.take_length, slice_remainder c b' hc] at hloop
  unfold TiPath.relative
  rw [if_neg hAB]
  simp only [resolve_one (c ++ a') hwfca, resolve_one (c ++ b') hwfcb]
  rw [if_neg hAB]
  rw [hloop]
  simp only [Option.map_some']
  simp only [Nat.zero_add]
  cases hb : b' with
  | nil =>
    congr 1
  | cons x t =>
    congr 1
    have hpos : 0 < slen (⟨mkAbsL (x :: t)⟩ : String) := by
      show 0 < (mkAbsL (x :: t)).length
      cases hm : mkAbsL (x :: t) with
      | nil => exact absurd hm (mkAbsL_ne_nil x t)
      | cons u v => simp
    rw [if_pos hpos]
    unfold jsSliceNN slen
    rw [show (⟨mkAbsL (x :: t)⟩ : String).data = mkAbsL (x :: t) from rfl]
    rw [List.take_length]
    rw [mkAbsL_join (x :: t) (by simp)]
    rfl

/-- C4, counterexample: the claim applies `resolve` to the bare output of
    `relative(A, B)`, but a relative result resolves against the working
    directory `/`, not against `A`: with `A = "/a/b"`, `B = "/a/c"` (common
    ancestor `/a`), `relative` yields `"../c"` and `resolve("../c")` is
    `"/c"`, not `normalize(B) = "/a/c"`. -/
theorem c4_roundtrip_counterexample :
    Posix.relative "/a/b" "/a/c" = some "../c" ∧
    Posix.resolve ["../c"] = "/c" ∧
    Posix.normalize "/a/c" = "/a/c" ∧
    Posix.resolve ["../c"] ≠ Posix.normalize "/a/c" := by
  refine ⟨rfl, rfl, rfl, ?_⟩
  decide

/-- C4, amended: for absolute normalized paths `A = /c₁/…/cₖ/a₁/…/aₘ` and
    `B = /c₁/…/cₖ/b₁/…/bₙ` over well-formed segments with a non-empty shared
    ancestor `/c₁/…/cₖ`, and whose first divergent segments are not in the
    character-prefix relation (the walk-up loop compares raw strings with
    `startsWith`), the round trip must re-resolve from `A`:
    `relative(A, B)` succeeds and `resolve(A, relative(A, B)) = B`. -/
theorem c4_roundtrip_amended (c a' b' : List String)
    (hwfc : ∀ s ∈ c, wfSeg s) (hwfa : ∀ s ∈ a', wfSeg s) (hwfb : ∀ s ∈ b', wfSeg s)
    (hc : c ≠ [])
    (hxy : ∀ x, a'.head? = some x → ∀ y, b'.head? = some y → ¬(x.data <+: y.data)) :
    ∃ rel, Posix.relative (mkAbs (c ++ a')) (mkAbs (c ++ b')) = some rel ∧
      Posix.resolve [mkAbs (c ++ a'), rel] = mkAbs (c ++ b') := by
  have hwfca : ∀ s ∈ c ++ a', wfSeg s := by
    intro s hs
    rcases List.mem_append.mp hs with h | h
    · exact hwfc s h
    · exact hwfa s h
  by_cases hne : a' = b'
  · subst hne
    refine ⟨"", ?_, resolve_pair_empty (c ++ a') hwfca⟩
    show TiPath.relative '/' (mkAbs (c ++ a')) (mkAbs (c ++ a')) = some ""
    unfold TiPath.relative
    rw [if_pos rfl]
  · refine ⟨repeatStr (".." ++ csStr '/') a'.length ++ joinStr '/' b', ?_, ?_⟩
    · exact relative_mkAbs c a' b' hc hwfc hwfa hwfb hne hxy
    · refine resolve_pair c a' b' hc hwfc hwfa hwfb ?_
      by_cases ha : a' = []
      · right
        intro hb
        exact hne (ha.trans hb.symm)
      · left
        exact ha

/-- C4, witness: the amended law at `A = /r/x`, `B = /r/y/z`. -/
theorem c4_roundtrip_amended_witness :
    ∃ rel, Posix.relative (mkAbs (["r"] ++ ["x"])) (mkAbs (["r"] ++ ["y", "z"])) = some rel ∧
      Posix.resolve [mkAbs (["r"] ++ ["x"]), rel] = mkAbs (["r"] ++ ["y", "z"]) :=
  c4_roundtrip_amended ["r"] ["x"] ["y", "z"] (by decide) (by decide) (by decide)
    (by decide)
    (by
      intro x hx y hy
      injection hx with h1
      injection hy with h2
      subst h1
      subst h2
      decide)
